import Mathlib

/-!
Verification of the Elasticsearch/Kibana provisioning installer
(`installer.go`) against its natural-language specification.

The Go source is shallowly embedded:

* Filesystem paths are modelled as lists of path components (POSIX style).
  `filepath.Join(a, b)` is component concatenation followed by lexical
  cleaning (`filepath.Clean`), which is what Go computes; `filepath.Dir`
  of a cleaned non-empty path is `List.dropLast`.
* The filesystem is a map from component paths to nodes (directory with
  permission mode, regular file with content and mode, or symbolic link
  with its stored target).  `os.MkdirAll`, `os.OpenFile` with
  `O_WRONLY|O_CREATE|O_TRUNC` (create-or-truncate; the permission argument
  is applied only on creation, as on POSIX), and `os.Symlink` (which fails
  if the new name already exists, or its parent is missing) are modelled
  as partial state transformers.  umask and symlink *traversal* are not
  modelled; none of the verified properties depend on them.
* `extractZIP` and `extractTGZ` are transcribed entry by entry from the
  source: the `__MACOSX/` skip, the `strings.HasPrefix` containment check
  against `filepath.Clean(destDir) + "/"` (which at component level is
  "the cleaned destination is a strict leading segment of the joined
  path"), the ignored `os.MkdirAll` result for zip directory entries, the
  lazy parent creation for zip file entries, and the tar switch over
  `Typeflag` with no containment check and no parent creation.
* `main` (the provisioning orchestrator) is modelled as a function from
  the platform string (`runtime.GOOS`) and an oracle of outcomes of the
  external effects (downloads, extraction, process starts, ...) to the
  ordered trace of effectful actions it performs and its final outcome.
  The archive extraction steps appear in the orchestrator model as oracle
  outcomes; the extractors themselves are verified separately above.
-/

/-- A filesystem node: directory, regular file, or symbolic link.
Modes are the stored permission bits as natural numbers. -/
inductive Node where
  | dir (mode : Nat)
  | file (content : String) (mode : Nat)
  | link (target : String)
deriving DecidableEq

/-- A filesystem state: a map from component paths to nodes. -/
structure FS where
  node : List String → Option Node

/-- The empty filesystem. -/
def emptyFS : FS := ⟨fun _ => none⟩

theorem FS.ext_node {s t : FS} (h : ∀ q, s.node q = t.node q) : s = t := by
  cases s; cases t; simp only [FS.mk.injEq]; funext q; exact h q

/-- One step of lexical path cleaning (`filepath.Clean` on a rooted path):
`.` and empty components vanish, `..` removes the previous component
(or nothing at the root), anything else is appended. -/
def cleanStep (acc : List String) (c : String) : List String :=
  if c = "." ∨ c = "" then acc
  else if c = ".." then acc.dropLast
  else acc ++ [c]

/-- `filepath.Clean` of a rooted path, on component lists. -/
def cleanAbs (p : List String) : List String :=
  p.foldl cleanStep []

/-- Boolean test: the first list is a leading segment of the second. -/
def startsWithComps : List String → List String → Bool
  | [], _ => true
  | _ :: _, [] => false
  | a :: as, b :: bs => a == b && startsWithComps as bs

/-- The component-level rendering of
`strings.HasPrefix(fpath, filepath.Clean(destDir) + "/")`:
`d` is a strict leading segment of `p`. -/
def underB (d p : List String) : Bool :=
  startsWithComps d p && decide (d.length < p.length)

/-- All non-empty leading segments of a path, shortest first.
These are exactly the directories `os.MkdirAll` is responsible for. -/
def properPrefixes (p : List String) : List (List String) :=
  (List.range p.length).map (fun i => List.take (i + 1) p)

/-- A slot `os.MkdirAll` accepts: absent, or already a directory. -/
def dirLike : Option Node → Bool
  | none => true
  | some (.dir _) => true
  | _ => false

/-- Is the node an existing directory? -/
def isDirNode : Option Node → Bool
  | some (.dir _) => true
  | _ => false

/-- Parent-existence check for creating an entry at `q ++ [c]`:
the root always exists, otherwise the parent must be a directory. -/
def dirOrRoot (fs : FS) (q : List String) : Bool :=
  q.isEmpty || isDirNode (fs.node q)

/-- `os.MkdirAll(p, m)`: fails iff some leading segment of `p` exists as a
non-directory; otherwise creates every missing leading segment as a
directory with mode `m`, leaving existing directories untouched. -/
def FS.mkdirAll (fs : FS) (p : List String) (m : Nat) : Option FS :=
  if (properPrefixes p).all (fun q => dirLike (fs.node q)) then
    some ⟨fun q =>
      if q ∈ properPrefixes p ∧ fs.node q = none then some (.dir m)
      else fs.node q⟩
  else none

/-- `os.OpenFile(p, O_WRONLY|O_CREATE|O_TRUNC, m)` followed by a full
`io.Copy` of `c` and `Close`: truncating an existing regular file keeps
its mode; creating a fresh file requires the parent directory and stores
mode `m`; an existing directory or symlink at `p` is an error. -/
def FS.writeFile (fs : FS) (p : List String) (c : String) (m : Nat) : Option FS :=
  match fs.node p with
  | some (.file _ m0) =>
      some ⟨fun q => if q = p then some (.file c m0) else fs.node q⟩
  | some _ => none
  | none =>
      if dirOrRoot fs p.dropLast then
        some ⟨fun q => if q = p then some (.file c m) else fs.node q⟩
      else none

/-- `os.Symlink(tgt, p)`: fails if anything already exists at `p`
(EEXIST) or the parent directory is missing; otherwise records the link
with its stored target string. -/
def FS.symlinkAt (fs : FS) (tgt : String) (p : List String) : Option FS :=
  match fs.node p with
  | some _ => none
  | none =>
      if dirOrRoot fs p.dropLast then
        some ⟨fun q => if q = p then some (.link tgt) else fs.node q⟩
      else none

/-- Extraction error kinds, matching the distinct error returns in
`extractZIP` / `extractTGZ`. -/
inductive ExtractErr where
  | pathTraversal (p : List String)
  | mkdirFailed
  | openFailed
  | symlinkFailed
deriving DecidableEq

/-- A zip archive entry as `extractZIP` consumes it: stored relative path
(as components), whether `f.FileInfo().IsDir()`, the entry bytes, and the
stored permission bits `f.Mode()`. -/
structure ZipEntry where
  name : List String
  isDir : Bool
  content : String
  mode : Nat
deriving DecidableEq

/-- The `strings.HasPrefix(f.Name, "__MACOSX/")` skip test: the first
stored path component is the macOS resource-fork folder. -/
def skipB (e : ZipEntry) : Bool :=
  e.name.head? == some "__MACOSX"

/-- One entry of the `extractZIP` loop, transcribed branch by branch:
skip `__MACOSX/` entries; compute `fpath := filepath.Join(destDir, f.Name)`
and fail with the traversal error unless it stays strictly inside the
cleaned destination `d`; directory entries run `os.MkdirAll(fpath, 0o777)`
with the error ignored; file entries first run
`os.MkdirAll(filepath.Dir(fpath), 0o777)` (fatal on error), then
create/truncate and write the file (fatal on error). -/
def zipStep (d : List String) (fs : FS) (e : ZipEntry) : FS × Option ExtractErr :=
  if skipB e = true then (fs, none)
  else
    if underB d (cleanAbs (d ++ e.name)) = true then
      if e.isDir = true then
        match fs.mkdirAll (cleanAbs (d ++ e.name)) 0o777 with
        | some fs1 => (fs1, none)
        | none => (fs, none)
      else
        match fs.mkdirAll (cleanAbs (d ++ e.name)).dropLast 0o777 with
        | none => (fs, some ExtractErr.mkdirFailed)
        | some fs1 =>
          match fs1.writeFile (cleanAbs (d ++ e.name)) e.content e.mode with
          | none => (fs1, some ExtractErr.openFailed)
          | some fs2 => (fs2, none)
    else (fs, some (ExtractErr.pathTraversal (cleanAbs (d ++ e.name))))

/-- The entry loop of `extractZIP`: run each entry's step in archive
order, aborting on the first error. -/
def extractZIPFrom (d : List String) : FS → List ZipEntry → FS × Option ExtractErr
  | fs, [] => (fs, none)
  | fs, e :: rest =>
    match zipStep d fs e with
    | (fs1, none) => extractZIPFrom d fs1 rest
    | (fs1, some err) => (fs1, some err)

/-- `extractZIP(zipPath, destDir)`: `os.MkdirAll(destDir, 0o755)` first
(fatal on error), then the entry loop. -/
def extractZIP (dest : List String) (entries : List ZipEntry) (fs : FS) :
    FS × Option ExtractErr :=
  match fs.mkdirAll (cleanAbs dest) 0o755 with
  | none => (fs, some ExtractErr.mkdirFailed)
  | some fs0 => extractZIPFrom (cleanAbs dest) fs0 entries

/-- Tar entry kinds handled by the `switch header.Typeflag` in
`extractTGZ`; every unhandled typeflag is `other`. -/
inductive TarKind where
  | dir | reg | symlink | other
deriving DecidableEq

/-- A tar entry as `extractTGZ` consumes it. -/
structure TarEntry where
  name : List String
  typeflag : TarKind
  mode : Nat
  content : String
  linkname : String
deriving DecidableEq

/-- One header of the `extractTGZ` loop, transcribed branch by branch:
`target := filepath.Join(destDir, header.Name)` with NO containment
check; directories via `os.MkdirAll(target, header.Mode)` (fatal);
regular files created/truncated directly with NO parent creation
(fatal); symlinks via `os.Symlink(header.Linkname, target)` (fatal);
all other typeflags silently ignored. -/
def tarStep (d : List String) (fs : FS) (e : TarEntry) : FS × Option ExtractErr :=
  match e.typeflag with
  | TarKind.dir =>
    match fs.mkdirAll (cleanAbs (d ++ e.name)) e.mode with
    | none => (fs, some ExtractErr.mkdirFailed)
    | some fs1 => (fs1, none)
  | TarKind.reg =>
    match fs.writeFile (cleanAbs (d ++ e.name)) e.content e.mode with
    | none => (fs, some ExtractErr.openFailed)
    | some fs1 => (fs1, none)
  | TarKind.symlink =>
    match fs.symlinkAt e.linkname (cleanAbs (d ++ e.name)) with
    | none => (fs, some ExtractErr.symlinkFailed)
    | some fs1 => (fs1, none)
  | TarKind.other => (fs, none)

/-- The header loop of `extractTGZ`: run each header's step in archive
order, aborting on the first error. -/
def extractTGZFrom (d : List String) : FS → List TarEntry → FS × Option ExtractErr
  | fs, [] => (fs, none)
  | fs, e :: rest =>
    match tarStep d fs e with
    | (fs1, none) => extractTGZFrom d fs1 rest
    | (fs1, some err) => (fs1, some err)

/-- `extractTGZ(tgzPath, destDir)`: `os.MkdirAll(destDir, 0o755)` first
(fatal on error), then the header loop. -/
def extractTGZ (dest : List String) (entries : List TarEntry) (fs : FS) :
    FS × Option ExtractErr :=
  match fs.mkdirAll (cleanAbs dest) 0o755 with
  | none => (fs, some ExtractErr.mkdirFailed)
  | some fs0 => extractTGZFrom (cleanAbs dest) fs0 entries

/-- The effectful actions `main` performs, in order, each fallible one
recording the outcome the code observed (whether or not it acted on it). -/
inductive Act where
  | getHomeDir
  | mkdirInstallRoot
  | getExecutablePath
  | download (component : String) (ok : Bool)
  | runNativeInstaller (ok : Bool)
  | setEnvVar (varName : String) (ok : Bool)
  | extract (component : String) (ok : Bool)
  | startProcess (component : String) (ok : Bool)
  | sleepSeconds (n : Nat)
  | openBrowser (ok : Bool)
deriving DecidableEq

/-- Outcome of one provisioning run: `main` either runs to the end or
returns early after printing the stage's error. -/
inductive RunResult where
  | completed
  | failed (stage : String)
deriving DecidableEq

/-- Oracle for the outcomes of the external effects `main` invokes. -/
structure Env where
  homeDirOk : Bool
  mkdirRootOk : Bool
  exeOk : Bool
  downloadJavaOk : Bool
  downloadElasticOk : Bool
  downloadKibanaOk : Bool
  msiOk : Bool
  setPathOk : Bool
  extractJavaOk : Bool
  extractElasticOk : Bool
  extractKibanaOk : Bool
  setJavaHomeOk : Bool
  startElasticOk : Bool
  startKibanaOk : Bool
  browserOk : Bool
deriving DecidableEq

/-- The platforms the `switch runtime.GOOS` statements handle. -/
def supported (goos : String) : Bool :=
  goos == "darwin" || goos == "linux" || goos == "windows"

/-- The Kibana readiness sleep in `main`: 240 seconds on Windows,
90 seconds on the other platforms. -/
def kibanaWait (goos : String) : Nat :=
  if goos == "windows" then 240 else 90

/-- The provisioning orchestrator `main` (together with the embedded
`startProcessE`), as a function from the platform and the effect oracle
to the ordered action trace and the outcome.  Transcribed line by line:
home dir, `MkdirAll(logViewerDir)` and `os.Executable` are fatal; the
platform switch fails on unsupported platforms BEFORE any download; the
three downloads are fatal in order Java, Elasticsearch, Kibana; the Java
install stage (tgz extraction on darwin/linux, msi installer plus PATH
mutation on windows) continues no matter what; Elasticsearch and Kibana
extraction are fatal; JAVA_HOME is set (result discarded) off windows;
`startProcessE` starts Elasticsearch (error discarded), sleeps 60s,
starts Kibana (fatal); then the platform-dependent Kibana wait and the
browser open whose error is discarded. -/
def mainRun (goos : String) (env : Env) : List Act × RunResult :=
  if env.homeDirOk = false then ([Act.getHomeDir], RunResult.failed "user home dir") else
  if env.mkdirRootOk = false then
    ([Act.getHomeDir, Act.mkdirInstallRoot], RunResult.failed "create logviewer directory") else
  if env.exeOk = false then
    ([Act.getHomeDir, Act.mkdirInstallRoot, Act.getExecutablePath],
     RunResult.failed "executable directory") else
  if supported goos = false then
    ([Act.getHomeDir, Act.mkdirInstallRoot, Act.getExecutablePath],
     RunResult.failed "unsupported operating system") else
  let t0 := [Act.getHomeDir, Act.mkdirInstallRoot, Act.getExecutablePath]
  if env.downloadJavaOk = false then
    (t0 ++ [Act.download "java" false], RunResult.failed "download java") else
  let t1 := t0 ++ [Act.download "java" true]
  if env.downloadElasticOk = false then
    (t1 ++ [Act.download "elasticsearch" false], RunResult.failed "download elasticsearch") else
  let t2 := t1 ++ [Act.download "elasticsearch" true]
  if env.downloadKibanaOk = false then
    (t2 ++ [Act.download "kibana" false], RunResult.failed "download kibana") else
  let t3 := t2 ++ [Act.download "kibana" true]
  let t4 := if goos == "windows"
    then t3 ++ [Act.runNativeInstaller env.msiOk, Act.setEnvVar "PATH" env.setPathOk]
    else t3 ++ [Act.extract "java" env.extractJavaOk]
  if env.extractElasticOk = false then
    (t4 ++ [Act.extract "elasticsearch" false], RunResult.failed "extract elasticsearch") else
  let t5 := t4 ++ [Act.extract "elasticsearch" true]
  if env.extractKibanaOk = false then
    (t5 ++ [Act.extract "kibana" false], RunResult.failed "extract kibana") else
  let t6 := t5 ++ [Act.extract "kibana" true]
  let t7 := if goos == "windows" then t6
    else t6 ++ [Act.setEnvVar "JAVA_HOME" env.setJavaHomeOk]
  let t8 := t7 ++ [Act.startProcess "elasticsearch" env.startElasticOk, Act.sleepSeconds 60]
  if env.startKibanaOk = false then
    (t8 ++ [Act.startProcess "kibana" false], RunResult.failed "start kibana") else
  let t9 := t8 ++ [Act.startProcess "kibana" true, Act.sleepSeconds (kibanaWait goos)]
  (t9 ++ [Act.openBrowser env.browserOk], RunResult.completed)

/-- The effect oracle in which every external effect succeeds. -/
def envAllOk : Env :=
  ⟨true, true, true, true, true, true, true, true, true, true, true, true, true, true, true⟩

/-- The conjunction of the stages whose failure aborts the run. -/
def fatalOk (env : Env) : Bool :=
  env.homeDirOk && env.mkdirRootOk && env.exeOk &&
  env.downloadJavaOk && env.downloadElasticOk && env.downloadKibanaOk &&
  env.extractElasticOk && env.extractKibanaOk && env.startKibanaOk

/-- `env` with the browser outcome replaced. -/
def setBrowser (e : Env) (b : Bool) : Env :=
  ⟨e.homeDirOk, e.mkdirRootOk, e.exeOk, e.downloadJavaOk, e.downloadElasticOk,
   e.downloadKibanaOk, e.msiOk, e.setPathOk, e.extractJavaOk, e.extractElasticOk,
   e.extractKibanaOk, e.setJavaHomeOk, e.startElasticOk, e.startKibanaOk, b⟩

theorem startsWithComps_iff (d p : List String) :
    startsWithComps d p = true ↔ ∃ r, p = d ++ r := by
  induction d generalizing p with
  | nil => simp [startsWithComps]
  | cons a as ih =>
    cases p with
    | nil => simp [startsWithComps]
    | cons b bs =>
      simp only [startsWithComps, Bool.and_eq_true, beq_iff_eq, ih, List.cons_append,
        List.cons.injEq]
      constructor
      · rintro ⟨rfl, r, rfl⟩; exact ⟨r, rfl, rfl⟩
      · rintro ⟨r, rfl, rfl⟩; exact ⟨rfl, r, rfl⟩

theorem startsWithComps_append (d r : List String) :
    startsWithComps d (d ++ r) = true :=
  (startsWithComps_iff d (d ++ r)).2 ⟨r, rfl⟩

theorem startsWithComps_refl (p : List String) : startsWithComps p p = true := by
  simpa using startsWithComps_append p []

theorem startsWithComps_take (p : List String) (n : Nat) :
    startsWithComps (p.take n) p = true :=
  (startsWithComps_iff _ _).2 ⟨p.drop n, (List.take_append_drop n p).symm⟩

theorem startsWithComps_length {d p : List String}
    (h : startsWithComps d p = true) : d.length ≤ p.length := by
  obtain ⟨r, rfl⟩ := (startsWithComps_iff d p).1 h
  simp

theorem startsWithComps_tricho {a b c : List String}
    (ha : startsWithComps a c = true) (hb : startsWithComps b c = true) :
    startsWithComps a b = true ∨ startsWithComps b a = true := by
  obtain ⟨r1, rfl⟩ := (startsWithComps_iff a c).1 ha
  obtain ⟨r2, hc⟩ := (startsWithComps_iff _ _).1 hb
  rcases List.append_eq_append_iff.1 hc with ⟨t, ht, _⟩ | ⟨t, ht, _⟩
  · exact Or.inl ((startsWithComps_iff a b).2 ⟨t, ht⟩)
  · exact Or.inr ((startsWithComps_iff b a).2 ⟨t, ht⟩)

theorem startsWithComps_dropLast {d p : List String}
    (h : startsWithComps d p = true) (hlen : d.length < p.length) :
    startsWithComps d p.dropLast = true := by
  obtain ⟨r, rfl⟩ := (startsWithComps_iff d p).1 h
  have hr : r ≠ [] := by
    intro hnil; subst hnil; simp at hlen
  refine (startsWithComps_iff _ _).2 ⟨r.dropLast, ?_⟩
  rw [List.dropLast_append_of_ne_nil _ hr]

theorem underB_eq_true {d p : List String} (h : underB d p = true) :
    startsWithComps d p = true ∧ d.length < p.length := by
  simpa [underB] using h

theorem mem_properPrefixes {q p : List String} :
    q ∈ properPrefixes p ↔ ∃ i, i < p.length ∧ q = p.take (i + 1) := by
  simp [properPrefixes, List.mem_map, List.mem_range, eq_comm]

theorem self_mem_properPrefixes {p : List String} (h : p ≠ []) :
    p ∈ properPrefixes p := by
  refine mem_properPrefixes.2 ⟨p.length - 1, ?_, ?_⟩
  · have : 0 < p.length := List.length_pos.2 h
    omega
  · have : 0 < p.length := List.length_pos.2 h
    rw [Nat.sub_add_cancel this, List.take_length]

theorem ne_nil_of_mem_properPrefixes {q p : List String}
    (h : q ∈ properPrefixes p) : q ≠ [] := by
  obtain ⟨i, hi, rfl⟩ := mem_properPrefixes.1 h
  have : (p.take (i + 1)).length = i + 1 := by
    rw [List.length_take]; omega
  intro hnil
  rw [hnil] at this
  simp at this

theorem swc_of_mem_properPrefixes {q p : List String}
    (h : q ∈ properPrefixes p) : startsWithComps q p = true := by
  obtain ⟨i, _, rfl⟩ := mem_properPrefixes.1 h
  exact startsWithComps_take p (i + 1)

/-- Any leading segment of a path that itself extends the destination `d`
is comparable with `d`: it is a leading segment of `d` or extends `d`. -/
theorem properPrefixes_side {d target q : List String}
    (hd : startsWithComps d target = true) (hq : q ∈ properPrefixes target) :
    startsWithComps q d = true ∨ startsWithComps d q = true :=
  startsWithComps_tricho (swc_of_mem_properPrefixes hq) hd

theorem mkdirAll_some_node {fs t : FS} {p : List String} {m : Nat}
    (h : fs.mkdirAll p m = some t) (q : List String) :
    t.node q =
      if q ∈ properPrefixes p ∧ fs.node q = none then some (.dir m)
      else fs.node q := by
  unfold FS.mkdirAll at h
  split at h
  · cases h; rfl
  · cases h

theorem mkdirAll_check {fs t : FS} {p : List String} {m : Nat}
    (h : fs.mkdirAll p m = some t) :
    ∀ q ∈ properPrefixes p, dirLike (fs.node q) = true := by
  unfold FS.mkdirAll at h
  split at h
  · next hall => exact fun q hq => List.all_eq_true.1 hall q hq
  · cases h

theorem mkdirAll_untouched {fs t : FS} {p : List String} {m : Nat}
    (h : fs.mkdirAll p m = some t) {q : List String}
    (hq : q ∉ properPrefixes p) : t.node q = fs.node q := by
  rw [mkdirAll_some_node h q]
  simp [hq]

theorem mkdirAll_dir_after {fs t : FS} {p : List String} {m : Nat}
    (h : fs.mkdirAll p m = some t) {q : List String}
    (hq : q ∈ properPrefixes p) : ∃ m', t.node q = some (.dir m') := by
  have hd := mkdirAll_check h q hq
  rw [mkdirAll_some_node h q]
  rcases hn : fs.node q with _ | n
  · exact ⟨m, by simp [hq, hn]⟩
  · rw [hn] at hd
    cases n with
    | dir m' => exact ⟨m', by simp [hn]⟩
    | file c m' => simp [dirLike] at hd
    | link x => simp [dirLike] at hd

theorem mkdirAll_noop {fs : FS} {p : List String} {m : Nat}
    (h : ∀ q ∈ properPrefixes p, isDirNode (fs.node q) = true) :
    fs.mkdirAll p m = some fs := by
  unfold FS.mkdirAll
  have hall : (properPrefixes p).all (fun q => dirLike (fs.node q)) = true := by
    refine List.all_eq_true.2 fun q hq => ?_
    have := h q hq
    rcases hn : fs.node q with _ | n
    · simp [dirLike]
    · rw [hn] at this; cases n <;> simp_all [isDirNode, dirLike]
  rw [if_pos hall]
  congr 1
  apply FS.ext_node
  intro q
  by_cases hq : q ∈ properPrefixes p
  · have := h q hq
    rcases hn : fs.node q with _ | n
    · rw [hn] at this; simp [isDirNode] at this
    · simp [hq, hn]
  · simp [hq]

theorem mkdirAll_none_iff {fs : FS} {p : List String} {m : Nat} :
    fs.mkdirAll p m = none ↔ ∃ q ∈ properPrefixes p, dirLike (fs.node q) = false := by
  unfold FS.mkdirAll
  split
  · next hall =>
    simp only [reduceCtorEq, false_iff]
    rintro ⟨q, hq, hfq⟩
    have := List.all_eq_true.1 hall q hq
    simp [this] at hfq
  · next hall =>
    simp only [true_iff]
    rcases List.all_eq_false.1 (Bool.eq_false_iff.2 hall) with ⟨q, hq, hfq⟩
    exact ⟨q, hq, by simpa using hfq⟩

theorem writeFile_eq_trunc {fs : FS} {p : List String} {c c0 : String} {m m0 : Nat}
    (hn : fs.node p = some (Node.file c0 m0)) :
    fs.writeFile p c m =
      some ⟨fun q => if q = p then some (.file c m0) else fs.node q⟩ := by
  simp [FS.writeFile, hn]

theorem writeFile_eq_create {fs : FS} {p : List String} {c : String} {m : Nat}
    (hn : fs.node p = none) :
    fs.writeFile p c m =
      if dirOrRoot fs p.dropLast then
        some ⟨fun q => if q = p then some (.file c m) else fs.node q⟩
      else none := by
  simp [FS.writeFile, hn]

theorem writeFile_eq_none_dir {fs : FS} {p : List String} {c : String} {m m0 : Nat}
    (hn : fs.node p = some (Node.dir m0)) :
    fs.writeFile p c m = none := by
  simp [FS.writeFile, hn]

theorem writeFile_eq_none_link {fs : FS} {p : List String} {c x : String} {m : Nat}
    (hn : fs.node p = some (Node.link x)) :
    fs.writeFile p c m = none := by
  simp [FS.writeFile, hn]

theorem writeFile_node {fs t : FS} {p : List String} {c : String} {m : Nat}
    (h : fs.writeFile p c m = some t) :
    (∃ mm, t.node p = some (.file c mm)) ∧ ∀ q, q ≠ p → t.node q = fs.node q := by
  rcases hn : fs.node p with _ | n
  · rw [writeFile_eq_create hn] at h
    split at h
    · cases h
      exact ⟨⟨m, by simp⟩, fun q hq => by simp [hq]⟩
    · cases h
  · cases n with
    | dir m0 => rw [writeFile_eq_none_dir hn] at h; cases h
    | file c0 m0 =>
      rw [writeFile_eq_trunc hn] at h
      cases h
      exact ⟨⟨m0, by simp⟩, fun q hq => by simp [hq]⟩
    | link x => rw [writeFile_eq_none_link hn] at h; cases h

/-- Replace the content of a regular file, keeping its mode; identity on
any other node. -/
def fileCont : Option Node → String → Option Node
  | some (.file _ m), c => some (.file c m)
  | n, _ => n

/-- The filesystem with the content of the regular file at `p` replaced. -/
def setCont (fs : FS) (p : List String) (c : String) : FS :=
  ⟨fun q => if q = p then fileCont (fs.node q) c else fs.node q⟩

theorem setCont_node (fs : FS) (p : List String) (c : String) (q : List String) :
    (setCont fs p c).node q = if q = p then fileCont (fs.node q) c else fs.node q := rfl

theorem fileCont_dirLike (n : Option Node) (c : String) :
    dirLike (fileCont n c) = dirLike n := by
  rcases n with _ | n
  · rfl
  · cases n <;> rfl

theorem fileCont_isDirNode (n : Option Node) (c : String) :
    isDirNode (fileCont n c) = isDirNode n := by
  rcases n with _ | n
  · rfl
  · cases n <;> rfl

theorem fileCont_eq_none (n : Option Node) (c : String) :
    (fileCont n c = none) ↔ n = none := by
  rcases n with _ | n
  · simp [fileCont]
  · cases n <;> simp [fileCont]

theorem writeFile_setCont {fs : FS} {p : List String} {c c0 : String} {m m0 : Nat}
    (hn : fs.node p = some (Node.file c0 m0)) :
    fs.writeFile p c m = some (setCont fs p c) := by
  rw [writeFile_eq_trunc hn]
  congr 1
  apply FS.ext_node
  intro q
  rw [setCont_node]
  by_cases hq : q = p
  · subst hq; rw [hn]; simp [fileCont]
  · simp [hq]

/-- Skeleton equality of nodes: same kind, same mode (for directories and
files) or same target (for links); file contents may differ. -/
def skelEq : Node → Node → Prop
  | .dir m, .dir m' => m = m'
  | .file _ m, .file _ m' => m = m'
  | .link x, .link x' => x = x'
  | _, _ => False

theorem skelEq_refl (n : Node) : skelEq n n := by
  cases n <;> simp [skelEq]

theorem skelEq_trans {a b c : Node} (h1 : skelEq a b) (h2 : skelEq b c) :
    skelEq a c := by
  cases a <;> cases b <;> cases c <;> simp_all [skelEq]

/-- Extraction only grows the filesystem: existing nodes keep their kind,
mode and (for links) target; only file contents may change. -/
def MonoFS (s t : FS) : Prop :=
  ∀ q n, s.node q = some n → ∃ n', t.node q = some n' ∧ skelEq n n'

theorem MonoFS.refl (s : FS) : MonoFS s s :=
  fun _ n h => ⟨n, h, skelEq_refl n⟩

theorem MonoFS.trans {s t u : FS} (h1 : MonoFS s t) (h2 : MonoFS t u) :
    MonoFS s u := by
  intro q n hn
  obtain ⟨n', hn', hsk⟩ := h1 q n hn
  obtain ⟨n'', hn'', hsk'⟩ := h2 q n' hn'
  exact ⟨n'', hn'', skelEq_trans hsk hsk'⟩

theorem MonoFS.dir {s t : FS} (h : MonoFS s t) {q : List String} {m : Nat}
    (hq : s.node q = some (Node.dir m)) : t.node q = some (Node.dir m) := by
  obtain ⟨n', hn', hsk⟩ := h q _ hq
  cases n' <;> simp_all [skelEq]

theorem MonoFS.file {s t : FS} (h : MonoFS s t) {q : List String} {c : String}
    {m : Nat} (hq : s.node q = some (Node.file c m)) :
    ∃ c', t.node q = some (Node.file c' m) := by
  obtain ⟨n', hn', hsk⟩ := h q _ hq
  cases n' with
  | dir m' => simp_all [skelEq]
  | file c' m' => exact ⟨c', by simp_all [skelEq]⟩
  | link x => simp_all [skelEq]

theorem MonoFS.link {s t : FS} (h : MonoFS s t) {q : List String} {x : String}
    (hq : s.node q = some (Node.link x)) : t.node q = some (Node.link x) := by
  obtain ⟨n', hn', hsk⟩ := h q _ hq
  cases n' <;> simp_all [skelEq]

theorem MonoFS.not_dirLike {s t : FS} (h : MonoFS s t) {q : List String}
    (hq : dirLike (s.node q) = false) : dirLike (t.node q) = false := by
  rcases hn : s.node q with _ | n
  · rw [hn] at hq; simp [dirLike] at hq
  · rw [hn] at hq
    cases n with
    | dir m => simp [dirLike] at hq
    | file c m =>
      obtain ⟨c', hc'⟩ := h.file hn
      simp [hc', dirLike]
    | link x =>
      have := h.link hn
      simp [this, dirLike]

theorem MonoFS.isDirNode_true {s t : FS} (h : MonoFS s t) {q : List String}
    (hq : isDirNode (s.node q) = true) : isDirNode (t.node q) = true := by
  rcases hn : s.node q with _ | n
  · rw [hn] at hq; simp [isDirNode] at hq
  · rw [hn] at hq
    cases n with
    | dir m => rw [h.dir hn]; rfl
    | file c m => simp [isDirNode] at hq
    | link x => simp [isDirNode] at hq

theorem mkdirAll_mono {fs t : FS} {p : List String} {m : Nat}
    (h : fs.mkdirAll p m = some t) : MonoFS fs t := by
  intro q n hn
  refine ⟨n, ?_, skelEq_refl n⟩
  rw [mkdirAll_some_node h q]
  simp [hn]

theorem writeFile_mono {fs t : FS} {p : List String} {c : String} {m : Nat}
    (h : fs.writeFile p c m = some t) : MonoFS fs t := by
  intro q n hn
  by_cases hq : q = p
  · subst hq
    cases n with
    | dir m0 => rw [writeFile_eq_none_dir hn] at h; cases h
    | file c0 m0 =>
      rw [writeFile_eq_trunc hn] at h
      cases h
      exact ⟨Node.file c m0, by simp, by simp [skelEq]⟩
    | link x => rw [writeFile_eq_none_link hn] at h; cases h
  · refine ⟨n, ?_, skelEq_refl n⟩
    rw [(writeFile_node h).2 q hq]
    exact hn

theorem symlinkAt_eq_none_some {fs : FS} {p : List String} {tgt : String} {n : Node}
    (hn : fs.node p = some n) : fs.symlinkAt tgt p = none := by
  simp [FS.symlinkAt, hn]

theorem symlinkAt_eq_create {fs : FS} {p : List String} {tgt : String}
    (hn : fs.node p = none) :
    fs.symlinkAt tgt p =
      if dirOrRoot fs p.dropLast then
        some ⟨fun q => if q = p then some (.link tgt) else fs.node q⟩
      else none := by
  simp [FS.symlinkAt, hn]

theorem symlinkAt_node {fs t : FS} {p : List String} {tgt : String}
    (h : fs.symlinkAt tgt p = some t) :
    t.node p = some (.link tgt) ∧ ∀ q, q ≠ p → t.node q = fs.node q := by
  rcases hn : fs.node p with _ | n
  · rw [symlinkAt_eq_create hn] at h
    split at h
    · cases h
      exact ⟨by simp, fun q hq => by simp [hq]⟩
    · cases h
  · rw [symlinkAt_eq_none_some hn] at h; cases h

theorem symlinkAt_mono {fs t : FS} {p : List String} {tgt : String}
    (h : fs.symlinkAt tgt p = some t) : MonoFS fs t := by
  intro q n hn
  refine ⟨n, ?_, skelEq_refl n⟩
  by_cases hq : q = p
  · subst hq
    rw [symlinkAt_eq_none_some hn] at h; cases h
  · rw [(symlinkAt_node h).2 q hq]; exact hn

theorem mkdirAll_none_mono {fs t : FS} {p : List String} {m m' : Nat}
    (h : fs.mkdirAll p m = none) (hmono : MonoFS fs t) :
    t.mkdirAll p m' = none := by
  rcases mkdirAll_none_iff.1 h with ⟨q, hq, hfq⟩
  exact mkdirAll_none_iff.2 ⟨q, hq, hmono.not_dirLike hfq⟩

theorem zipStep_skip {d : List String} {fs : FS} {e : ZipEntry}
    (h : skipB e = true) : zipStep d fs e = (fs, none) := by
  simp [zipStep, h]

theorem zipStep_traversal {d : List String} {fs : FS} {e : ZipEntry}
    (h1 : skipB e = false) (h2 : underB d (cleanAbs (d ++ e.name)) = false) :
    zipStep d fs e = (fs, some (ExtractErr.pathTraversal (cleanAbs (d ++ e.name)))) := by
  simp [zipStep, h1, h2]

theorem zipStep_dir_some {d : List String} {fs fs1 : FS} {e : ZipEntry}
    (h1 : skipB e = false) (h2 : underB d (cleanAbs (d ++ e.name)) = true)
    (h3 : e.isDir = true)
    (h4 : fs.mkdirAll (cleanAbs (d ++ e.name)) 0o777 = some fs1) :
    zipStep d fs e = (fs1, none) := by
  simp [zipStep, h1, h2, h3, h4]

theorem zipStep_dir_none {d : List String} {fs : FS} {e : ZipEntry}
    (h1 : skipB e = false) (h2 : underB d (cleanAbs (d ++ e.name)) = true)
    (h3 : e.isDir = true)
    (h4 : fs.mkdirAll (cleanAbs (d ++ e.name)) 0o777 = none) :
    zipStep d fs e = (fs, none) := by
  simp [zipStep, h1, h2, h3, h4]

theorem zipStep_file_mkdir_none {d : List String} {fs : FS} {e : ZipEntry}
    (h1 : skipB e = false) (h2 : underB d (cleanAbs (d ++ e.name)) = true)
    (h3 : e.isDir = false)
    (h4 : fs.mkdirAll (cleanAbs (d ++ e.name)).dropLast 0o777 = none) :
    zipStep d fs e = (fs, some ExtractErr.mkdirFailed) := by
  simp [zipStep, h1, h2, h3, h4]

theorem zipStep_file_write_none {d : List String} {fs fs1 : FS} {e : ZipEntry}
    (h1 : skipB e = false) (h2 : underB d (cleanAbs (d ++ e.name)) = true)
    (h3 : e.isDir = false)
    (h4 : fs.mkdirAll (cleanAbs (d ++ e.name)).dropLast 0o777 = some fs1)
    (h5 : fs1.writeFile (cleanAbs (d ++ e.name)) e.content e.mode = none) :
    zipStep d fs e = (fs1, some ExtractErr.openFailed) := by
  simp [zipStep, h1, h2, h3, h4, h5]

theorem zipStep_file_ok {d : List String} {fs fs1 fs2 : FS} {e : ZipEntry}
    (h1 : skipB e = false) (h2 : underB d (cleanAbs (d ++ e.name)) = true)
    (h3 : e.isDir = false)
    (h4 : fs.mkdirAll (cleanAbs (d ++ e.name)).dropLast 0o777 = some fs1)
    (h5 : fs1.writeFile (cleanAbs (d ++ e.name)) e.content e.mode = some fs2) :
    zipStep d fs e = (fs2, none) := by
  simp [zipStep, h1, h2, h3, h4, h5]

theorem zipFrom_nil (d : List String) (fs : FS) :
    extractZIPFrom d fs [] = (fs, none) := rfl

theorem zipFrom_cons (d : List String) (fs : FS) (e : ZipEntry) (rest : List ZipEntry) :
    extractZIPFrom d fs (e :: rest) =
      match zipStep d fs e with
      | (fs1, none) => extractZIPFrom d fs1 rest
      | (fs1, some err) => (fs1, some err) := rfl

theorem zipFrom_cons_inv {d : List String} {fs t : FS} {e : ZipEntry}
    {rest : List ZipEntry}
    (h : extractZIPFrom d fs (e :: rest) = (t, none)) :
    ∃ fs1, zipStep d fs e = (fs1, none) ∧ extractZIPFrom d fs1 rest = (t, none) := by
  rw [zipFrom_cons] at h
  rcases hstep : zipStep d fs e with ⟨fs1, err⟩
  rw [hstep] at h
  cases err with
  | none => exact ⟨fs1, rfl, h⟩
  | some e' => simp at h

theorem zipStep_mono (d : List String) (fs : FS) (e : ZipEntry) :
    MonoFS fs (zipStep d fs e).1 := by
  by_cases h1 : skipB e = true
  · rw [zipStep_skip h1]; exact MonoFS.refl fs
  · rw [Bool.not_eq_true] at h1
    by_cases h2 : underB d (cleanAbs (d ++ e.name)) = true
    · by_cases h3 : e.isDir = true
      · rcases h4 : fs.mkdirAll (cleanAbs (d ++ e.name)) 0o777 with _ | fs1
        · rw [zipStep_dir_none h1 h2 h3 h4]; exact MonoFS.refl fs
        · rw [zipStep_dir_some h1 h2 h3 h4]; exact mkdirAll_mono h4
      · rw [Bool.not_eq_true] at h3
        rcases h4 : fs.mkdirAll (cleanAbs (d ++ e.name)).dropLast 0o777 with _ | fs1
        · rw [zipStep_file_mkdir_none h1 h2 h3 h4]; exact MonoFS.refl fs
        · rcases h5 : fs1.writeFile (cleanAbs (d ++ e.name)) e.content e.mode with _ | fs2
          · rw [zipStep_file_write_none h1 h2 h3 h4 h5]; exact mkdirAll_mono h4
          · rw [zipStep_file_ok h1 h2 h3 h4 h5]
            exact (mkdirAll_mono h4).trans (writeFile_mono h5)
    · rw [Bool.not_eq_true] at h2
      rw [zipStep_traversal h1 h2]; exact MonoFS.refl fs

theorem zipFrom_mono (d : List String) :
    ∀ (es : List ZipEntry) (fs : FS), MonoFS fs (extractZIPFrom d fs es).1 := by
  intro es
  induction es with
  | nil => intro fs; exact MonoFS.refl fs
  | cons e rest ih =>
    intro fs
    rw [zipFrom_cons]
    rcases hstep : zipStep d fs e with ⟨fs1, err⟩
    have hm : MonoFS fs fs1 := by
      have := zipStep_mono d fs e
      rw [hstep] at this
      exact this
    cases err with
    | none => exact hm.trans (ih fs1)
    | some e' => exact hm

/-- No leading segment of a path strictly inside the destination can be a
path that is incomparable with the destination. -/
theorem not_mem_properPrefixes_outside {d target p : List String}
    (hu : underB d target = true)
    (h1 : startsWithComps d p = false) (h2 : startsWithComps p d = false) :
    p ∉ properPrefixes target := by
  intro hp
  rcases properPrefixes_side (underB_eq_true hu).1 hp with h | h
  · rw [h] at h2; cases h2
  · rw [h] at h1; cases h1

/-- A single zip step never touches a path incomparable with the
destination, whether it succeeds or fails. -/
theorem zipStep_outside {d p : List String} {fs : FS} {e : ZipEntry}
    (h1 : startsWithComps d p = false) (h2 : startsWithComps p d = false) :
    ((zipStep d fs e).1).node p = fs.node p := by
  by_cases hs : skipB e = true
  · rw [zipStep_skip hs]
  · rw [Bool.not_eq_true] at hs
    by_cases hu : underB d (cleanAbs (d ++ e.name)) = true
    · by_cases hd : e.isDir = true
      · rcases h4 : fs.mkdirAll (cleanAbs (d ++ e.name)) 0o777 with _ | fs1
        · rw [zipStep_dir_none hs hu hd h4]
        · rw [zipStep_dir_some hs hu hd h4]
          exact mkdirAll_untouched h4 (not_mem_properPrefixes_outside hu h1 h2)
      · rw [Bool.not_eq_true] at hd
        have hfs1 : ∀ fs1, fs.mkdirAll (cleanAbs (d ++ e.name)).dropLast 0o777 = some fs1 →
            fs1.node p = fs.node p := by
          intro fs1 h4
          refine mkdirAll_untouched h4 ?_
          intro hp
          have hdl : startsWithComps d (cleanAbs (d ++ e.name)).dropLast = true :=
            startsWithComps_dropLast (underB_eq_true hu).1 (underB_eq_true hu).2
          rcases properPrefixes_side hdl hp with h | h
          · rw [h] at h2; cases h2
          · rw [h] at h1; cases h1
        rcases h4 : fs.mkdirAll (cleanAbs (d ++ e.name)).dropLast 0o777 with _ | fs1
        · rw [zipStep_file_mkdir_none hs hu hd h4]
        · rcases h5 : fs1.writeFile (cleanAbs (d ++ e.name)) e.content e.mode with _ | fs2
          · rw [zipStep_file_write_none hs hu hd h4 h5]
            exact hfs1 fs1 h4
          · rw [zipStep_file_ok hs hu hd h4 h5]
            have hne : p ≠ cleanAbs (d ++ e.name) := by
              intro hp
              rw [hp] at h1
              rw [(underB_eq_true hu).1] at h1
              cases h1
            rw [(writeFile_node h5).2 p hne]
            exact hfs1 fs1 h4
    · rw [Bool.not_eq_true] at hu
      rw [zipStep_traversal hs hu]

/-- The whole zip entry loop never touches a path incomparable with the
destination. -/
theorem zipFrom_outside {d p : List String}
    (h1 : startsWithComps d p = false) (h2 : startsWithComps p d = false) :
    ∀ (es : List ZipEntry) (fs : FS),
      ((extractZIPFrom d fs es).1).node p = fs.node p := by
  intro es
  induction es with
  | nil => intro fs; rfl
  | cons e rest ih =>
    intro fs
    rw [zipFrom_cons]
    rcases hstep : zipStep d fs e with ⟨fs1, err⟩
    have hout : fs1.node p = fs.node p := by
      have := @zipStep_outside d p fs e h1 h2
      rw [hstep] at this
      exact this
    cases err with
    | none => rw [ih fs1]; exact hout
    | some e' => exact hout

/-- If some non-skipped entry escapes the destination, the zip entry loop
does not succeed. -/
theorem zipFrom_escape {d : List String} :
    ∀ (es : List ZipEntry) (fs : FS),
      (∃ e ∈ es, skipB e = false ∧ underB d (cleanAbs (d ++ e.name)) = false) →
      (extractZIPFrom d fs es).2 ≠ none := by
  intro es
  induction es with
  | nil =>
    intro fs h
    rcases h with ⟨e, he, _⟩
    simp at he
  | cons e' rest ih =>
    intro fs h
    rcases h with ⟨e, he, hskip, hunder⟩
    rw [zipFrom_cons]
    rcases List.mem_cons.1 he with rfl | hmem
    · rw [zipStep_traversal hskip hunder]
      simp
    · rcases hstep : zipStep d fs e' with ⟨fs1, err⟩
      cases err with
      | none => exact ih fs1 ⟨e, hmem, hskip, hunder⟩
      | some e'' => simp

theorem extractZIP_eq_none {dest : List String} {fs : FS} {es : List ZipEntry}
    (h : fs.mkdirAll (cleanAbs dest) 0o755 = none) :
    extractZIP dest es fs = (fs, some ExtractErr.mkdirFailed) := by
  simp [extractZIP, h]

theorem extractZIP_eq_some {dest : List String} {fs fs0 : FS} {es : List ZipEntry}
    (h : fs.mkdirAll (cleanAbs dest) 0o755 = some fs0) :
    extractZIP dest es fs = extractZIPFrom (cleanAbs dest) fs0 es := by
  simp [extractZIP, h]

theorem fileCont_fileCont (n : Option Node) (a b : String) :
    fileCont (fileCont n a) b = fileCont n b := by
  rcases n with _ | n
  · rfl
  · cases n <;> rfl

theorem setCont_node_ne {fs : FS} {p q : List String} {c' : String} (h : q ≠ p) :
    (setCont fs p c').node q = fs.node q := by
  rw [setCont_node, if_neg h]

theorem setCont_file_node {fs : FS} {p : List String} {c0 c' : String} {m0 : Nat}
    (h : fs.node p = some (Node.file c0 m0)) :
    (setCont fs p c').node p = some (Node.file c' m0) := by
  rw [setCont_node, if_pos rfl, h]; rfl

theorem setCont_self {fs : FS} {p : List String} {c0 : String} {m0 : Nat}
    (h : fs.node p = some (Node.file c0 m0)) : setCont fs p c0 = fs := by
  apply FS.ext_node
  intro q
  rw [setCont_node]
  by_cases hq : q = p
  · subst hq; rw [h]; simp [fileCont]
  · rw [if_neg hq]

theorem setCont_setCont (fs : FS) (p : List String) (a b : String) :
    setCont (setCont fs p a) p b = setCont fs p b := by
  apply FS.ext_node
  intro q
  simp only [setCont_node]
  by_cases hq : q = p
  · subst hq
    simp [fileCont_fileCont]
  · simp only [if_neg hq]

theorem dirLike_setCont (fs : FS) (p : List String) (c' : String) (r : List String) :
    dirLike ((setCont fs p c').node r) = dirLike (fs.node r) := by
  rw [setCont_node]
  by_cases hr : r = p
  · rw [if_pos hr, hr, fileCont_dirLike]
  · rw [if_neg hr]

theorem dirOrRoot_setCont (fs : FS) (p : List String) (c' : String) (r : List String) :
    dirOrRoot (setCont fs p c') r = dirOrRoot fs r := by
  unfold dirOrRoot
  rw [setCont_node]
  by_cases hr : r = p
  · rw [if_pos hr, hr, fileCont_isDirNode]
  · rw [if_neg hr]

theorem mkdirAll_setCont_none {u : FS} {pp : List String} {c' : String}
    {p : List String} {m : Nat} (h : u.mkdirAll p m = none) :
    (setCont u pp c').mkdirAll p m = none := by
  rcases mkdirAll_none_iff.1 h with ⟨r, hr, hfr⟩
  exact mkdirAll_none_iff.2 ⟨r, hr, by rw [dirLike_setCont]; exact hfr⟩

theorem mkdirAll_setCont_some {u w : FS} {pp : List String} {c0 c' : String}
    {m0 : Nat} {p : List String} {m : Nat}
    (hq : u.node pp = some (Node.file c0 m0)) (h : u.mkdirAll p m = some w) :
    (setCont u pp c').mkdirAll p m = some (setCont w pp c') := by
  have hcheck := mkdirAll_check h
  unfold FS.mkdirAll
  have hall : ((properPrefixes p).all fun r => dirLike ((setCont u pp c').node r)) = true := by
    refine List.all_eq_true.2 fun r hr => ?_
    rw [dirLike_setCont]
    exact hcheck r hr
  rw [if_pos hall]
  congr 1
  apply FS.ext_node
  intro r
  dsimp only
  by_cases hrp : r = pp
  · subst hrp
    have hw : w.node r = some (Node.file c0 m0) := by
      rw [mkdirAll_some_node h r]; simp [hq]
    rw [setCont_file_node hq, setCont_file_node hw]
    simp
  · rw [setCont_node_ne hrp, setCont_node_ne hrp, mkdirAll_some_node h r]

theorem writeFile_map_setCont {u : FS} {pp q2 : List String} {c' c : String}
    {m : Nat} (hne : q2 ≠ pp) :
    (setCont u pp c').writeFile q2 c m =
      ((u.writeFile q2 c m).map fun w => setCont w pp c') := by
  have hnode2 : (setCont u pp c').node q2 = u.node q2 := setCont_node_ne hne
  have hupd : ∀ (v1 v2 : Option Node), v1 = v2 →
      (⟨fun q => if q = q2 then v1 else (setCont u pp c').node q⟩ : FS) =
        setCont ⟨fun q => if q = q2 then v2 else u.node q⟩ pp c' := by
    rintro v1 v2 rfl
    apply FS.ext_node
    intro r
    by_cases hr2 : r = q2 <;> by_cases hrp : r = pp
    · exact absurd (hr2.symm.trans hrp) hne
    · simp [setCont_node, hr2, hrp, fileCont, hne]
    · simp [setCont_node, hr2, hrp, fileCont, Ne.symm hne]
    · simp [setCont_node, hr2, hrp, fileCont]
  rcases hn : u.node q2 with _ | n
  · rw [writeFile_eq_create hn,
      writeFile_eq_create (show (setCont u pp c').node q2 = none by rw [hnode2, hn])]
    rw [dirOrRoot_setCont]
    by_cases hpar : dirOrRoot u q2.dropLast = true
    · rw [if_pos hpar, if_pos hpar]
      simp only [Option.map_some']
      exact congrArg some (hupd _ _ rfl)
    · rw [Bool.not_eq_true] at hpar
      rw [hpar]
      simp
  · cases n with
    | dir md =>
      rw [writeFile_eq_none_dir hn,
        writeFile_eq_none_dir (show (setCont u pp c').node q2 = some (Node.dir md) by
          rw [hnode2, hn])]
      rfl
    | file cf mf =>
      rw [writeFile_eq_trunc hn,
        writeFile_eq_trunc (show (setCont u pp c').node q2 = some (Node.file cf mf) by
          rw [hnode2, hn])]
      simp only [Option.map_some']
      exact congrArg some (hupd _ _ rfl)
    | link x =>
      rw [writeFile_eq_none_link hn,
        writeFile_eq_none_link (show (setCont u pp c').node q2 = some (Node.link x) by
          rw [hnode2, hn])]
      rfl

theorem writeFile_setCont_self {u : FS} {pp : List String} {c0 c' c : String}
    {m0 m : Nat} (hq : u.node pp = some (Node.file c0 m0)) :
    (setCont u pp c').writeFile pp c m = some (setCont u pp c) := by
  rw [writeFile_setCont (setCont_file_node hq), setCont_setCont]

/-- Does this zip entry, when its step is reached, write file content at
path `q`?  (Exactly the condition under which the loop's `writeFile`
touches `q`.) -/
def zipWrites (d q : List String) (e : ZipEntry) : Bool :=
  !skipB e && !e.isDir && underB d (cleanAbs (d ++ e.name)) &&
    (cleanAbs (d ++ e.name) == q)

/-- Replaying the zip loop from a state that differs only in the content
of one regular file: the run still succeeds, and the difference survives
exactly when no entry of the list rewrites that file. -/
theorem zipFrom_setCont {d : List String} :
    ∀ (es : List ZipEntry) (u v : FS) (q : List String) (c0 : String) (m0 : Nat),
      extractZIPFrom d u es = (v, none) → u.node q = some (Node.file c0 m0) →
      ∀ c', extractZIPFrom d (setCont u q c') es =
        (if es.any (zipWrites d q) then v else setCont v q c', none) := by
  intro es
  induction es with
  | nil =>
    intro u v q c0 m0 hrun hq c'
    rw [zipFrom_nil] at hrun
    injection hrun with h1 _
    subst h1
    simp [zipFrom_nil]
  | cons e rest ih =>
    intro u v q c0 m0 hrun hq c'
    obtain ⟨u1, hstep, hrest⟩ := zipFrom_cons_inv hrun
    by_cases hs : skipB e = true
    · rw [zipStep_skip hs] at hstep
      injection hstep with h1 _
      subst h1
      have hy : extractZIPFrom d (setCont u q c') (e :: rest) =
          extractZIPFrom d (setCont u q c') rest := by
        rw [zipFrom_cons, zipStep_skip hs]
      rw [hy, ih u v q c0 m0 hrest hq c']
      have hw : zipWrites d q e = false := by simp [zipWrites, hs]
      simp [List.any_cons, hw]
    · rw [Bool.not_eq_true] at hs
      by_cases hu : underB d (cleanAbs (d ++ e.name)) = true
      · by_cases hd : e.isDir = true
        · have hw : zipWrites d q e = false := by simp [zipWrites, hd]
          rcases h4 : u.mkdirAll (cleanAbs (d ++ e.name)) 0o777 with _ | ua
          · rw [zipStep_dir_none hs hu hd h4] at hstep
            injection hstep with h1 _
            subst h1
            have hy : extractZIPFrom d (setCont u q c') (e :: rest) =
                extractZIPFrom d (setCont u q c') rest := by
              rw [zipFrom_cons, zipStep_dir_none hs hu hd (mkdirAll_setCont_none h4)]
            rw [hy, ih u v q c0 m0 hrest hq c']
            simp [List.any_cons, hw]
          · rw [zipStep_dir_some hs hu hd h4] at hstep
            injection hstep with h1 _
            subst h1
            have hq1 : ua.node q = some (Node.file c0 m0) := by
              rw [mkdirAll_some_node h4 q]
              simp [hq]
            have hy : extractZIPFrom d (setCont u q c') (e :: rest) =
                extractZIPFrom d (setCont ua q c') rest := by
              rw [zipFrom_cons, zipStep_dir_some hs hu hd (mkdirAll_setCont_some hq h4)]
            rw [hy, ih ua v q c0 m0 hrest hq1 c']
            simp [List.any_cons, hw]
        · rw [Bool.not_eq_true] at hd
          rcases h4 : u.mkdirAll (cleanAbs (d ++ e.name)).dropLast 0o777 with _ | ua
          · rw [zipStep_file_mkdir_none hs hu hd h4] at hstep
            simp at hstep
          · rcases h5 : ua.writeFile (cleanAbs (d ++ e.name)) e.content e.mode with _ | ub
            · rw [zipStep_file_write_none hs hu hd h4 h5] at hstep
              simp at hstep
            · rw [zipStep_file_ok hs hu hd h4 h5] at hstep
              injection hstep with h1 _
              subst h1
              have hqa : ua.node q = some (Node.file c0 m0) := by
                rw [mkdirAll_some_node h4 q]
                simp [hq]
              by_cases hqt : cleanAbs (d ++ e.name) = q
              · rw [hqt] at h5
                have h5' : ua.writeFile q e.content e.mode = some (setCont ua q e.content) :=
                  writeFile_setCont hqa
                rw [h5] at h5'
                have hu1 : ub = setCont ua q e.content := Option.some.inj h5'
                have hy : extractZIPFrom d (setCont u q c') (e :: rest) =
                    extractZIPFrom d ub rest := by
                  rw [zipFrom_cons,
                    zipStep_file_ok hs hu hd (mkdirAll_setCont_some hq h4)
                      (show (setCont ua q c').writeFile (cleanAbs (d ++ e.name))
                          e.content e.mode = some ub by
                        rw [hqt, writeFile_setCont_self hqa, ← hu1])]
                rw [hy, hrest]
                rw [hqt] at hu
                have hw : zipWrites d q e = true := by
                  simp [zipWrites, hs, hd, hqt, hu]
                simp [List.any_cons, hw]
              · have hq1 : ub.node q = some (Node.file c0 m0) := by
                  rw [(writeFile_node h5).2 q (fun h => hqt h.symm)]
                  exact hqa
                have hy : extractZIPFrom d (setCont u q c') (e :: rest) =
                    extractZIPFrom d (setCont ub q c') rest := by
                  rw [zipFrom_cons,
                    zipStep_file_ok hs hu hd (mkdirAll_setCont_some hq h4)
                      (show (setCont ua q c').writeFile (cleanAbs (d ++ e.name))
                          e.content e.mode = some (setCont ub q c') by
                        rw [writeFile_map_setCont hqt, h5, Option.map_some'])]
                rw [hy, ih ub v q c0 m0 hrest hq1 c']
                have hw : zipWrites d q e = false := by
                  simp [zipWrites, hqt]
                simp [List.any_cons, hw]
      · rw [Bool.not_eq_true] at hu
        rw [zipStep_traversal hs hu] at hstep
        simp at hstep

/-- A successful zip loop that contains no entry writing file content at
`q` leaves the node at `q` exactly as it found it (provided it existed). -/
theorem zipFrom_stable {d q : List String} :
    ∀ (es : List ZipEntry) (u v : FS) (n : Node),
      extractZIPFrom d u es = (v, none) →
      (∀ e ∈ es, zipWrites d q e = false) →
      u.node q = some n → v.node q = some n := by
  intro es
  induction es with
  | nil =>
    intro u v n hrun _ hq
    rw [zipFrom_nil] at hrun
    injection hrun with h1 _
    rw [← h1]
    exact hq
  | cons e rest ih =>
    intro u v n hrun hw hq
    obtain ⟨u1, hstep, hrest⟩ := zipFrom_cons_inv hrun
    have hwe : zipWrites d q e = false := hw e (List.mem_cons_self e rest)
    have hwr : ∀ e' ∈ rest, zipWrites d q e' = false :=
      fun e' he' => hw e' (List.mem_cons_of_mem e he')
    have hq1 : u1.node q = some n := by
      by_cases hs : skipB e = true
      · rw [zipStep_skip hs] at hstep
        injection hstep with h1 _
        rw [← h1]
        exact hq
      · rw [Bool.not_eq_true] at hs
        by_cases hu : underB d (cleanAbs (d ++ e.name)) = true
        · by_cases hd : e.isDir = true
          · rcases h4 : u.mkdirAll (cleanAbs (d ++ e.name)) 0o777 with _ | ua
            · rw [zipStep_dir_none hs hu hd h4] at hstep
              injection hstep with h1 _
              rw [← h1]
              exact hq
            · rw [zipStep_dir_some hs hu hd h4] at hstep
              injection hstep with h1 _
              rw [← h1, mkdirAll_some_node h4 q]
              simp [hq]
          · rw [Bool.not_eq_true] at hd
            rcases h4 : u.mkdirAll (cleanAbs (d ++ e.name)).dropLast 0o777 with _ | ua
            · rw [zipStep_file_mkdir_none hs hu hd h4] at hstep
              simp at hstep
            · rcases h5 : ua.writeFile (cleanAbs (d ++ e.name)) e.content e.mode with _ | ub
              · rw [zipStep_file_write_none hs hu hd h4 h5] at hstep
                simp at hstep
              · rw [zipStep_file_ok hs hu hd h4 h5] at hstep
                injection hstep with h1 _
                have hne : q ≠ cleanAbs (d ++ e.name) := by
                  intro heq
                  rw [zipWrites, hs, hd, hu, heq] at hwe
                  simp at hwe
                rw [← h1, (writeFile_node h5).2 q hne, mkdirAll_some_node h4 q]
                simp [hq]
        · rw [Bool.not_eq_true] at hu
          rw [zipStep_traversal hs hu] at hstep
          simp at hstep
    exact ih u1 v n hrest hwr hq1

/-- Re-running a successful zip loop from its own final state succeeds
and leaves the state unchanged. -/
theorem zipFrom_idem {d : List String} :
    ∀ (es : List ZipEntry) (s t : FS),
      extractZIPFrom d s es = (t, none) → extractZIPFrom d t es = (t, none) := by
  intro es
  induction es with
  | nil => intro s t _; exact zipFrom_nil d t
  | cons e rest ih =>
    intro s t hrun
    obtain ⟨s1, hstep, hrest⟩ := zipFrom_cons_inv hrun
    have hmono : MonoFS s1 t := by
      have := zipFrom_mono d rest s1
      rw [hrest] at this
      exact this
    have hIH : extractZIPFrom d t rest = (t, none) := ih s1 t hrest
    by_cases hs : skipB e = true
    · have hy : extractZIPFrom d t (e :: rest) = extractZIPFrom d t rest := by
        rw [zipFrom_cons, zipStep_skip hs]
      rw [hy]
      exact hIH
    · rw [Bool.not_eq_true] at hs
      by_cases hu : underB d (cleanAbs (d ++ e.name)) = true
      · by_cases hd : e.isDir = true
        · rcases h4 : s.mkdirAll (cleanAbs (d ++ e.name)) 0o777 with _ | sa
          · rw [zipStep_dir_none hs hu hd h4] at hstep
            injection hstep with h1 _
            subst h1
            have h4t : t.mkdirAll (cleanAbs (d ++ e.name)) 0o777 = none :=
              mkdirAll_none_mono h4 hmono
            have hy : extractZIPFrom d t (e :: rest) = extractZIPFrom d t rest := by
              rw [zipFrom_cons, zipStep_dir_none hs hu hd h4t]
            rw [hy]
            exact hIH
          · rw [zipStep_dir_some hs hu hd h4] at hstep
            injection hstep with h1 _
            subst h1
            have hnoop : t.mkdirAll (cleanAbs (d ++ e.name)) 0o777 = some t := by
              apply mkdirAll_noop
              intro r hr
              obtain ⟨m', hm'⟩ := mkdirAll_dir_after h4 hr
              rw [hmono.dir hm']
              rfl
            have hy : extractZIPFrom d t (e :: rest) = extractZIPFrom d t rest := by
              rw [zipFrom_cons, zipStep_dir_some hs hu hd hnoop]
            rw [hy]
            exact hIH
        · rw [Bool.not_eq_true] at hd
          rcases h4 : s.mkdirAll (cleanAbs (d ++ e.name)).dropLast 0o777 with _ | sa
          · rw [zipStep_file_mkdir_none hs hu hd h4] at hstep
            simp at hstep
          · rcases h5 : sa.writeFile (cleanAbs (d ++ e.name)) e.content e.mode with _ | sb
            · rw [zipStep_file_write_none hs hu hd h4 h5] at hstep
              simp at hstep
            · rw [zipStep_file_ok hs hu hd h4 h5] at hstep
              injection hstep with h1 _
              subst h1
              have hmono_sa : MonoFS sa t := (writeFile_mono h5).trans hmono
              have hnoop : t.mkdirAll (cleanAbs (d ++ e.name)).dropLast 0o777 = some t := by
                apply mkdirAll_noop
                intro r hr
                obtain ⟨m', hm'⟩ := mkdirAll_dir_after h4 hr
                rw [hmono_sa.dir hm']
                rfl
              obtain ⟨⟨mm, hmm⟩, -⟩ := writeFile_node h5
              obtain ⟨ct, hct⟩ := hmono.file hmm
              have hwt : t.writeFile (cleanAbs (d ++ e.name)) e.content e.mode =
                  some (setCont t (cleanAbs (d ++ e.name)) e.content) :=
                writeFile_setCont hct
              have hy : extractZIPFrom d t (e :: rest) =
                  extractZIPFrom d (setCont t (cleanAbs (d ++ e.name)) e.content) rest := by
                rw [zipFrom_cons, zipStep_file_ok hs hu hd hnoop hwt]
              rw [hy,
                zipFrom_setCont rest t t (cleanAbs (d ++ e.name)) ct mm hIH hct e.content]
              by_cases hany : rest.any (zipWrites d (cleanAbs (d ++ e.name))) = true
              · rw [if_pos hany]
              · rw [Bool.not_eq_true] at hany
                have hstable : t.node (cleanAbs (d ++ e.name)) =
                    some (Node.file e.content mm) := by
                  refine zipFrom_stable rest sb t _ hrest ?_ hmm
                  intro e' he'
                  rcases hb : zipWrites d (cleanAbs (d ++ e.name)) e' with _ | _
                  · rfl
                  · exact absurd (List.any_eq_true.2 ⟨e', he', hb⟩) (by rw [hany]; simp)
                rw [hany]
                simp only [Bool.false_eq_true, if_false]
                rw [setCont_self hstable]
      · rw [Bool.not_eq_true] at hu
        rw [zipStep_traversal hs hu] at hstep
        simp at hstep

/-- Extracting a zip archive a second time into the same destination,
starting from the state the first successful extraction produced,
succeeds and changes nothing. -/
theorem extractZIP_idem {dest : List String} {es : List ZipEntry} {s t : FS}
    (h : extractZIP dest es s = (t, none)) : extractZIP dest es t = (t, none) := by
  rcases h0 : s.mkdirAll (cleanAbs dest) 0o755 with _ | s0
  · rw [extractZIP_eq_none h0] at h
    simp at h
  · rw [extractZIP_eq_some h0] at h
    have hm0 : MonoFS s0 t := by
      have := zipFrom_mono (cleanAbs dest) es s0
      rw [h] at this
      exact this
    have hnoop : t.mkdirAll (cleanAbs dest) 0o755 = some t := by
      apply mkdirAll_noop
      intro r hr
      obtain ⟨m', hm'⟩ := mkdirAll_dir_after h0 hr
      rw [hm0.dir hm']
      rfl
    rw [extractZIP_eq_some hnoop]
    exact zipFrom_idem es s0 t h

theorem tarStep_dir_none {d : List String} {fs : FS} {e : TarEntry}
    (h3 : e.typeflag = TarKind.dir)
    (h4 : fs.mkdirAll (cleanAbs (d ++ e.name)) e.mode = none) :
    tarStep d fs e = (fs, some ExtractErr.mkdirFailed) := by
  simp [tarStep, h3, h4]

theorem tarStep_dir_some {d : List String} {fs fs1 : FS} {e : TarEntry}
    (h3 : e.typeflag = TarKind.dir)
    (h4 : fs.mkdirAll (cleanAbs (d ++ e.name)) e.mode = some fs1) :
    tarStep d fs e = (fs1, none) := by
  simp [tarStep, h3, h4]

theorem tarStep_reg_none {d : List String} {fs : FS} {e : TarEntry}
    (h3 : e.typeflag = TarKind.reg)
    (h4 : fs.writeFile (cleanAbs (d ++ e.name)) e.content e.mode = none) :
    tarStep d fs e = (fs, some ExtractErr.openFailed) := by
  simp [tarStep, h3, h4]

theorem tarStep_reg_some {d : List String} {fs fs1 : FS} {e : TarEntry}
    (h3 : e.typeflag = TarKind.reg)
    (h4 : fs.writeFile (cleanAbs (d ++ e.name)) e.content e.mode = some fs1) :
    tarStep d fs e = (fs1, none) := by
  simp [tarStep, h3, h4]

theorem tarStep_symlink_none {d : List String} {fs : FS} {e : TarEntry}
    (h3 : e.typeflag = TarKind.symlink)
    (h4 : fs.symlinkAt e.linkname (cleanAbs (d ++ e.name)) = none) :
    tarStep d fs e = (fs, some ExtractErr.symlinkFailed) := by
  simp [tarStep, h3, h4]

theorem tarStep_symlink_some {d : List String} {fs fs1 : FS} {e : TarEntry}
    (h3 : e.typeflag = TarKind.symlink)
    (h4 : fs.symlinkAt e.linkname (cleanAbs (d ++ e.name)) = some fs1) :
    tarStep d fs e = (fs1, none) := by
  simp [tarStep, h3, h4]

theorem tarStep_other {d : List String} {fs : FS} {e : TarEntry}
    (h3 : e.typeflag = TarKind.other) : tarStep d fs e = (fs, none) := by
  simp [tarStep, h3]

theorem tgzFrom_nil (d : List String) (fs : FS) :
    extractTGZFrom d fs [] = (fs, none) := rfl

theorem tgzFrom_cons (d : List String) (fs : FS) (e : TarEntry) (rest : List TarEntry) :
    extractTGZFrom d fs (e :: rest) =
      match tarStep d fs e with
      | (fs1, none) => extractTGZFrom d fs1 rest
      | (fs1, some err) => (fs1, some err) := rfl

theorem tgzFrom_cons_inv {d : List String} {fs t : FS} {e : TarEntry}
    {rest : List TarEntry}
    (h : extractTGZFrom d fs (e :: rest) = (t, none)) :
    ∃ fs1, tarStep d fs e = (fs1, none) ∧ extractTGZFrom d fs1 rest = (t, none) := by
  rw [tgzFrom_cons] at h
  rcases hstep : tarStep d fs e with ⟨fs1, err⟩
  rw [hstep] at h
  cases err with
  | none => exact ⟨fs1, rfl, h⟩
  | some e' => simp at h

theorem tarStep_mono (d : List String) (fs : FS) (e : TarEntry) :
    MonoFS fs (tarStep d fs e).1 := by
  rcases h3 : e.typeflag with _ | _ | _ | _
  · rcases h4 : fs.mkdirAll (cleanAbs (d ++ e.name)) e.mode with _ | fs1
    · rw [tarStep_dir_none h3 h4]; exact MonoFS.refl fs
    · rw [tarStep_dir_some h3 h4]; exact mkdirAll_mono h4
  · rcases h4 : fs.writeFile (cleanAbs (d ++ e.name)) e.content e.mode with _ | fs1
    · rw [tarStep_reg_none h3 h4]; exact MonoFS.refl fs
    · rw [tarStep_reg_some h3 h4]; exact writeFile_mono h4
  · rcases h4 : fs.symlinkAt e.linkname (cleanAbs (d ++ e.name)) with _ | fs1
    · rw [tarStep_symlink_none h3 h4]; exact MonoFS.refl fs
    · rw [tarStep_symlink_some h3 h4]; exact symlinkAt_mono h4
  · rw [tarStep_other h3]; exact MonoFS.refl fs

theorem tgzFrom_mono (d : List String) :
    ∀ (es : List TarEntry) (fs : FS), MonoFS fs (extractTGZFrom d fs es).1 := by
  intro es
  induction es with
  | nil => intro fs; exact MonoFS.refl fs
  | cons e rest ih =>
    intro fs
    rw [tgzFrom_cons]
    rcases hstep : tarStep d fs e with ⟨fs1, err⟩
    have hm : MonoFS fs fs1 := by
      have := tarStep_mono d fs e
      rw [hstep] at this
      exact this
    cases err with
    | none => exact hm.trans (ih fs1)
    | some e' => exact hm

theorem extractTGZ_eq_none {dest : List String} {fs : FS} {es : List TarEntry}
    (h : fs.mkdirAll (cleanAbs dest) 0o755 = none) :
    extractTGZ dest es fs = (fs, some ExtractErr.mkdirFailed) := by
  simp [extractTGZ, h]

theorem extractTGZ_eq_some {dest : List String} {fs fs0 : FS} {es : List TarEntry}
    (h : fs.mkdirAll (cleanAbs dest) 0o755 = some fs0) :
    extractTGZ dest es fs = extractTGZFrom (cleanAbs dest) fs0 es := by
  simp [extractTGZ, h]

theorem symlinkAt_map_setCont {u : FS} {q p : List String} {c0 c' tgt : String}
    {m0 : Nat} (hq : u.node q = some (Node.file c0 m0)) :
    (setCont u q c').symlinkAt tgt p =
      ((u.symlinkAt tgt p).map fun w => setCont w q c') := by
  by_cases hpq : p = q
  · subst hpq
    rw [symlinkAt_eq_none_some (setCont_file_node hq), symlinkAt_eq_none_some hq]
    rfl
  · have hnode : (setCont u q c').node p = u.node p := setCont_node_ne hpq
    rcases hn : u.node p with _ | n
    · rw [symlinkAt_eq_create (show (setCont u q c').node p = none by rw [hnode, hn]),
        symlinkAt_eq_create hn, dirOrRoot_setCont]
      by_cases hpar : dirOrRoot u p.dropLast = true
      · rw [if_pos hpar, if_pos hpar]
        simp only [Option.map_some']
        congr 1
        apply FS.ext_node
        intro r
        by_cases hr2 : r = p <;> by_cases hrq : r = q
        · exact absurd (hr2.symm.trans hrq) hpq
        · simp [setCont_node, hr2, hrq, fileCont]
        · simp [setCont_node, hr2, hrq, fileCont, Ne.symm hpq]
        · simp [setCont_node, hr2, hrq, fileCont]
      · rw [Bool.not_eq_true] at hpar
        rw [hpar]
        simp
    · rw [symlinkAt_eq_none_some (show (setCont u q c').node p = some n by
        rw [hnode, hn]), symlinkAt_eq_none_some hn]
      rfl

/-- Does this tar entry, when its step is reached, write file content at
path `q`? -/
def tarWrites (d q : List String) (e : TarEntry) : Bool :=
  (e.typeflag == TarKind.reg) && (cleanAbs (d ++ e.name) == q)

/-- Replaying the tar loop from a state that differs only in the content
of one regular file: the run still succeeds, and the difference survives
exactly when no entry of the list rewrites that file. -/
theorem tgzFrom_setCont {d : List String} :
    ∀ (es : List TarEntry) (u v : FS) (q : List String) (c0 : String) (m0 : Nat),
      extractTGZFrom d u es = (v, none) → u.node q = some (Node.file c0 m0) →
      ∀ c', extractTGZFrom d (setCont u q c') es =
        (if es.any (tarWrites d q) then v else setCont v q c', none) := by
  intro es
  induction es with
  | nil =>
    intro u v q c0 m0 hrun hq c'
    rw [tgzFrom_nil] at hrun
    injection hrun with h1 _
    subst h1
    simp [tgzFrom_nil]
  | cons e rest ih =>
    intro u v q c0 m0 hrun hq c'
    obtain ⟨u1, hstep, hrest⟩ := tgzFrom_cons_inv hrun
    rcases h3 : e.typeflag with _ | _ | _ | _
    · have hw : tarWrites d q e = false := by simp [tarWrites, h3]
      rcases h4 : u.mkdirAll (cleanAbs (d ++ e.name)) e.mode with _ | ua
      · rw [tarStep_dir_none h3 h4] at hstep
        simp at hstep
      · rw [tarStep_dir_some h3 h4] at hstep
        injection hstep with h1 _
        subst h1
        have hq1 : ua.node q = some (Node.file c0 m0) := by
          rw [mkdirAll_some_node h4 q]
          simp [hq]
        have hy : extractTGZFrom d (setCont u q c') (e :: rest) =
            extractTGZFrom d (setCont ua q c') rest := by
          rw [tgzFrom_cons, tarStep_dir_some h3 (mkdirAll_setCont_some hq h4)]
        rw [hy, ih ua v q c0 m0 hrest hq1 c']
        simp [List.any_cons, hw]
    · rcases h4 : u.writeFile (cleanAbs (d ++ e.name)) e.content e.mode with _ | ua
      · rw [tarStep_reg_none h3 h4] at hstep
        simp at hstep
      · rw [tarStep_reg_some h3 h4] at hstep
        injection hstep with h1 _
        subst h1
        by_cases hqt : cleanAbs (d ++ e.name) = q
        · rw [hqt] at h4
          have h4' : u.writeFile q e.content e.mode = some (setCont u q e.content) :=
            writeFile_setCont hq
          rw [h4] at h4'
          have hu1 : ua = setCont u q e.content := Option.some.inj h4'
          have hy : extractTGZFrom d (setCont u q c') (e :: rest) =
              extractTGZFrom d ua rest := by
            rw [tgzFrom_cons,
              tarStep_reg_some h3
                (show (setCont u q c').writeFile (cleanAbs (d ++ e.name))
                    e.content e.mode = some ua by
                  rw [hqt, writeFile_setCont_self hq, ← hu1])]
          rw [hy, hrest]
          have hw : tarWrites d q e = true := by
            simp [tarWrites, h3, hqt]
          simp [List.any_cons, hw]
        · have hq1 : ua.node q = some (Node.file c0 m0) := by
            rw [(writeFile_node h4).2 q (fun h => hqt h.symm)]
            exact hq
          have hy : extractTGZFrom d (setCont u q c') (e :: rest) =
              extractTGZFrom d (setCont ua q c') rest := by
            rw [tgzFrom_cons,
              tarStep_reg_some h3
                (show (setCont u q c').writeFile (cleanAbs (d ++ e.name))
                    e.content e.mode = some (setCont ua q c') by
                  rw [writeFile_map_setCont hqt, h4, Option.map_some'])]
          rw [hy, ih ua v q c0 m0 hrest hq1 c']
          have hw : tarWrites d q e = false := by
            simp [tarWrites, hqt]
          simp [List.any_cons, hw]
    · have hw : tarWrites d q e = false := by simp [tarWrites, h3]
      rcases h4 : u.symlinkAt e.linkname (cleanAbs (d ++ e.name)) with _ | ua
      · rw [tarStep_symlink_none h3 h4] at hstep
        simp at hstep
      · rw [tarStep_symlink_some h3 h4] at hstep
        injection hstep with h1 _
        subst h1
        have hqt : cleanAbs (d ++ e.name) ≠ q := by
          intro heq
          rcases hn : u.node (cleanAbs (d ++ e.name)) with _ | n
          · rw [heq, hq] at hn
            cases hn
          · rw [symlinkAt_eq_none_some hn] at h4
            cases h4
        have hq1 : ua.node q = some (Node.file c0 m0) := by
          rw [(symlinkAt_node h4).2 q (fun h => hqt h.symm)]
          exact hq
        have hy : extractTGZFrom d (setCont u q c') (e :: rest) =
            extractTGZFrom d (setCont ua q c') rest := by
          rw [tgzFrom_cons,
            tarStep_symlink_some h3
              (show (setCont u q c').symlinkAt e.linkname (cleanAbs (d ++ e.name))
                  = some (setCont ua q c') by
                rw [symlinkAt_map_setCont hq, h4, Option.map_some'])]
        rw [hy, ih ua v q c0 m0 hrest hq1 c']
        simp [List.any_cons, hw]
    · have hw : tarWrites d q e = false := by simp [tarWrites, h3]
      rw [tarStep_other h3] at hstep
      injection hstep with h1 _
      subst h1
      have hy : extractTGZFrom d (setCont u q c') (e :: rest) =
          extractTGZFrom d (setCont u q c') rest := by
        rw [tgzFrom_cons, tarStep_other h3]
      rw [hy, ih u v q c0 m0 hrest hq c']
      simp [List.any_cons, hw]

/-- A successful tar loop containing no entry that writes file content at
`q` leaves the node at `q` exactly as it found it (provided it existed). -/
theorem tgzFrom_stable {d q : List String} :
    ∀ (es : List TarEntry) (u v : FS) (n : Node),
      extractTGZFrom d u es = (v, none) →
      (∀ e ∈ es, tarWrites d q e = false) →
      u.node q = some n → v.node q = some n := by
  intro es
  induction es with
  | nil =>
    intro u v n hrun _ hq
    rw [tgzFrom_nil] at hrun
    injection hrun with h1 _
    rw [← h1]
    exact hq
  | cons e rest ih =>
    intro u v n hrun hw hq
    obtain ⟨u1, hstep, hrest⟩ := tgzFrom_cons_inv hrun
    have hwe : tarWrites d q e = false := hw e (List.mem_cons_self e rest)
    have hwr : ∀ e' ∈ rest, tarWrites d q e' = false :=
      fun e' he' => hw e' (List.mem_cons_of_mem e he')
    have hq1 : u1.node q = some n := by
      rcases h3 : e.typeflag with _ | _ | _ | _
      · rcases h4 : u.mkdirAll (cleanAbs (d ++ e.name)) e.mode with _ | ua
        · rw [tarStep_dir_none h3 h4] at hstep
          simp at hstep
        · rw [tarStep_dir_some h3 h4] at hstep
          injection hstep with h1 _
          rw [← h1, mkdirAll_some_node h4 q]
          simp [hq]
      · rcases h4 : u.writeFile (cleanAbs (d ++ e.name)) e.content e.mode with _ | ua
        · rw [tarStep_reg_none h3 h4] at hstep
          simp at hstep
        · rw [tarStep_reg_some h3 h4] at hstep
          injection hstep with h1 _
          have hne : q ≠ cleanAbs (d ++ e.name) := by
            intro heq
            rw [tarWrites, h3, heq] at hwe
            simp at hwe
          rw [← h1, (writeFile_node h4).2 q hne]
          exact hq
      · rcases h4 : u.symlinkAt e.linkname (cleanAbs (d ++ e.name)) with _ | ua
        · rw [tarStep_symlink_none h3 h4] at hstep
          simp at hstep
        · rw [tarStep_symlink_some h3 h4] at hstep
          injection hstep with h1 _
          have hne : q ≠ cleanAbs (d ++ e.name) := by
            intro heq
            rcases hn : u.node (cleanAbs (d ++ e.name)) with _ | nn
            · rw [← heq, hq] at hn
              cases hn
            · rw [symlinkAt_eq_none_some hn] at h4
              cases h4
          rw [← h1, (symlinkAt_node h4).2 q hne]
          exact hq
      · rw [tarStep_other h3] at hstep
        injection hstep with h1 _
        rw [← h1]
        exact hq
    exact ih u1 v n hrest hwr hq1

/-- Re-running a successful tar loop containing no symlink entries, from
its own final state, succeeds and changes nothing. -/
theorem tgzFrom_idem {d : List String} :
    ∀ (es : List TarEntry) (s t : FS),
      (∀ e ∈ es, e.typeflag ≠ TarKind.symlink) →
      extractTGZFrom d s es = (t, none) → extractTGZFrom d t es = (t, none) := by
  intro es
  induction es with
  | nil => intro s t _ _; exact tgzFrom_nil d t
  | cons e rest ih =>
    intro s t hsym hrun
    obtain ⟨s1, hstep, hrest⟩ := tgzFrom_cons_inv hrun
    have hmono : MonoFS s1 t := by
      have := tgzFrom_mono d rest s1
      rw [hrest] at this
      exact this
    have hIH : extractTGZFrom d t rest = (t, none) :=
      ih s1 t (fun e' he' => hsym e' (List.mem_cons_of_mem e he')) hrest
    rcases h3 : e.typeflag with _ | _ | _ | _
    · rcases h4 : s.mkdirAll (cleanAbs (d ++ e.name)) e.mode with _ | sa
      · rw [tarStep_dir_none h3 h4] at hstep
        simp at hstep
      · rw [tarStep_dir_some h3 h4] at hstep
        injection hstep with h1 _
        subst h1
        have hnoop : t.mkdirAll (cleanAbs (d ++ e.name)) e.mode = some t := by
          apply mkdirAll_noop
          intro r hr
          obtain ⟨m', hm'⟩ := mkdirAll_dir_after h4 hr
          rw [hmono.dir hm']
          rfl
        have hy : extractTGZFrom d t (e :: rest) = extractTGZFrom d t rest := by
          rw [tgzFrom_cons, tarStep_dir_some h3 hnoop]
        rw [hy]
        exact hIH
    · rcases h4 : s.writeFile (cleanAbs (d ++ e.name)) e.content e.mode with _ | sa
      · rw [tarStep_reg_none h3 h4] at hstep
        simp at hstep
      · rw [tarStep_reg_some h3 h4] at hstep
        injection hstep with h1 _
        subst h1
        obtain ⟨⟨mm, hmm⟩, -⟩ := writeFile_node h4
        obtain ⟨ct, hct⟩ := hmono.file hmm
        have hwt : t.writeFile (cleanAbs (d ++ e.name)) e.content e.mode =
            some (setCont t (cleanAbs (d ++ e.name)) e.content) :=
          writeFile_setCont hct
        have hy : extractTGZFrom d t (e :: rest) =
            extractTGZFrom d (setCont t (cleanAbs (d ++ e.name)) e.content) rest := by
          rw [tgzFrom_cons, tarStep_reg_some h3 hwt]
        rw [hy,
          tgzFrom_setCont rest t t (cleanAbs (d ++ e.name)) ct mm hIH hct e.content]
        by_cases hany : rest.any (tarWrites d (cleanAbs (d ++ e.name))) = true
        · rw [if_pos hany]
        · rw [Bool.not_eq_true] at hany
          have hstable : t.node (cleanAbs (d ++ e.name)) =
              some (Node.file e.content mm) := by
            refine tgzFrom_stable rest sa t _ hrest ?_ hmm
            intro e' he'
            rcases hb : tarWrites d (cleanAbs (d ++ e.name)) e' with _ | _
            · rfl
            · exact absurd (List.any_eq_true.2 ⟨e', he', hb⟩) (by rw [hany]; simp)
          rw [hany]
          simp only [Bool.false_eq_true, if_false]
          rw [setCont_self hstable]
    · exact absurd h3 (hsym e (List.mem_cons_self e rest))
    · rw [tarStep_other h3] at hstep
      injection hstep with h1 _
      subst h1
      have hy : extractTGZFrom d t (e :: rest) = extractTGZFrom d t rest := by
        rw [tgzFrom_cons, tarStep_other h3]
      rw [hy]
      exact hIH

/-- Extracting a symlink-free tar archive a second time into the same
destination, from the state the first successful extraction produced,
succeeds and changes nothing. -/
theorem extractTGZ_idem {dest : List String} {es : List TarEntry} {s t : FS}
    (hsym : ∀ e ∈ es, e.typeflag ≠ TarKind.symlink)
    (h : extractTGZ dest es s = (t, none)) : extractTGZ dest es t = (t, none) := by
  rcases h0 : s.mkdirAll (cleanAbs dest) 0o755 with _ | s0
  · rw [extractTGZ_eq_none h0] at h
    simp at h
  · rw [extractTGZ_eq_some h0] at h
    have hm0 : MonoFS s0 t := by
      have := tgzFrom_mono (cleanAbs dest) es s0
      rw [h] at this
      exact this
    have hnoop : t.mkdirAll (cleanAbs dest) 0o755 = some t := by
      apply mkdirAll_noop
      intro r hr
      obtain ⟨m', hm'⟩ := mkdirAll_dir_after h0 hr
      rw [hm0.dir hm']
      rfl
    rw [extractTGZ_eq_some hnoop]
    exact tgzFrom_idem es s0 t hsym h

/-- In any successful zip extraction, every non-skipped regular-file
entry ends up as a regular file at its joined destination path,
regardless of where (or whether) its parent directory appears as an
entry in archive order. -/
theorem zipFrom_file_placed {d : List String} :
    ∀ (es : List ZipEntry) (fs t : FS),
      extractZIPFrom d fs es = (t, none) →
      ∀ e ∈ es, skipB e = false → e.isDir = false →
      ∃ c m, t.node (cleanAbs (d ++ e.name)) = some (Node.file c m) := by
  intro es
  induction es with
  | nil => intro fs t _ e he; simp at he
  | cons e' rest ih =>
    intro fs t hrun e he hskip hdir
    obtain ⟨fs1, hstep, hrest⟩ := zipFrom_cons_inv hrun
    rcases List.mem_cons.1 he with rfl | hmem
    · by_cases hu : underB d (cleanAbs (d ++ e.name)) = true
      · rcases h4 : fs.mkdirAll (cleanAbs (d ++ e.name)).dropLast 0o777 with _ | fsa
        · rw [zipStep_file_mkdir_none hskip hu hdir h4] at hstep
          simp at hstep
        · rcases h5 : fsa.writeFile (cleanAbs (d ++ e.name)) e.content e.mode with _ | fsb
          · rw [zipStep_file_write_none hskip hu hdir h4 h5] at hstep
            simp at hstep
          · rw [zipStep_file_ok hskip hu hdir h4 h5] at hstep
            injection hstep with h1 _
            subst h1
            obtain ⟨⟨mm, hmm⟩, -⟩ := writeFile_node h5
            have hmono : MonoFS fsb t := by
              have := zipFrom_mono d rest fsb
              rw [hrest] at this
              exact this
            obtain ⟨c', hc'⟩ := hmono.file hmm
            exact ⟨c', mm, hc'⟩
      · rw [Bool.not_eq_true] at hu
        rw [zipStep_traversal hskip hu] at hstep
        simp at hstep
    · exact ih fs1 t hrest e hmem hskip hdir

/-- Oracle for the externals `downloadFile` touches: whether `http.Get`
succeeds, whether `io.Copy` runs to completion, the full response body,
and the partial body left behind by an interrupted copy. -/
structure NetEnv where
  getOk : Bool
  copyOk : Bool
  body : String
  partialBody : String
deriving DecidableEq

/-- `downloadFile(filepath, url)` transcribed line by line: `os.Create`
first (create or truncate to an empty file, mode 0o666), then `http.Get`,
then `io.Copy` of the response body into the already-created file; the
first failing call's error is returned, with no cleanup of the file. -/
def downloadFile (p : List String) (net : NetEnv) (fs : FS) : FS × Option String :=
  match fs.writeFile p "" 0o666 with
  | none => (fs, some "create failed")
  | some fs1 =>
    if net.getOk = false then (fs1, some "get failed")
    else
      if net.copyOk = false then
        match fs1.writeFile p net.partialBody 0o666 with
        | none => (fs1, some "copy failed")
        | some fs2 => (fs2, some "copy failed")
      else
        match fs1.writeFile p net.body 0o666 with
        | none => (fs1, some "copy failed")
        | some fs2 => (fs2, none)

theorem supported_cases {goos : String} (h : supported goos = true) :
    goos = "darwin" ∨ goos = "linux" ∨ goos = "windows" := by
  by_contra hc
  push_neg at hc
  obtain ⟨h1, h2, h3⟩ := hc
  simp [supported, h1, h2, h3] at h

/-- On a supported platform the run completes exactly when every fatal
stage succeeds; the outcomes of the Java install step, the environment
mutations, the Elasticsearch process start and the browser open never
affect the result. -/
theorem mainRun_completed_iff {goos : String} (env : Env)
    (hs : supported goos = true) :
    (mainRun goos env).2 = RunResult.completed ↔ fatalOk env = true := by
  by_cases h1 : env.homeDirOk = false
  · simp [mainRun, fatalOk, h1]
  rw [Bool.not_eq_false] at h1
  by_cases h2 : env.mkdirRootOk = false
  · simp [mainRun, fatalOk, h1, h2]
  rw [Bool.not_eq_false] at h2
  by_cases h3 : env.exeOk = false
  · simp [mainRun, fatalOk, h1, h2, h3]
  rw [Bool.not_eq_false] at h3
  by_cases h4 : env.downloadJavaOk = false
  · simp [mainRun, fatalOk, hs, h1, h2, h3, h4]
  rw [Bool.not_eq_false] at h4
  by_cases h5 : env.downloadElasticOk = false
  · simp [mainRun, fatalOk, hs, h1, h2, h3, h4, h5]
  rw [Bool.not_eq_false] at h5
  by_cases h6 : env.downloadKibanaOk = false
  · simp [mainRun, fatalOk, hs, h1, h2, h3, h4, h5, h6]
  rw [Bool.not_eq_false] at h6
  by_cases h7 : env.extractElasticOk = false
  · simp [mainRun, fatalOk, hs, h1, h2, h3, h4, h5, h6, h7]
  rw [Bool.not_eq_false] at h7
  by_cases h8 : env.extractKibanaOk = false
  · simp [mainRun, fatalOk, hs, h1, h2, h3, h4, h5, h6, h7, h8]
  rw [Bool.not_eq_false] at h8
  by_cases h9 : env.startKibanaOk = false
  · simp [mainRun, fatalOk, hs, h1, h2, h3, h4, h5, h6, h7, h8, h9]
  rw [Bool.not_eq_false] at h9
  simp [mainRun, fatalOk, hs, h1, h2, h3, h4, h5, h6, h7, h8, h9]

/-- Claim C7 (confirmed): in every successful run the search engine is
started before the dashboard with the fixed 60-second wait between the
two launches, then the platform-dependent dashboard wait and the browser
open; the dashboard wait is 240 seconds on Windows (the native-installer
platform) and 90 seconds elsewhere, strictly longer on Windows. -/
theorem claim_C7 (goos : String) (env : Env) (hs : supported goos = true)
    (hc : (mainRun goos env).2 = RunResult.completed) :
    (∃ pre, (mainRun goos env).1 = pre ++
      [Act.startProcess "elasticsearch" env.startElasticOk, Act.sleepSeconds 60,
       Act.startProcess "kibana" true, Act.sleepSeconds (kibanaWait goos),
       Act.openBrowser env.browserOk]) ∧
    kibanaWait "windows" = 240 ∧
    (∀ g, supported g = true → g ≠ "windows" → kibanaWait g = 90) ∧
    (90 : Nat) < 240 := by
  refine ⟨?_, rfl, ?_, by norm_num⟩
  · have hf := (mainRun_completed_iff env hs).1 hc
    simp only [fatalOk, Bool.and_eq_true] at hf
    obtain ⟨⟨⟨⟨⟨⟨⟨⟨f1, f2⟩, f3⟩, f4⟩, f5⟩, f6⟩, f7⟩, f8⟩, f9⟩ := hf
    refine ⟨[Act.getHomeDir, Act.mkdirInstallRoot, Act.getExecutablePath,
        Act.download "java" true, Act.download "elasticsearch" true,
        Act.download "kibana" true] ++
        (if goos == "windows" then
          [Act.runNativeInstaller env.msiOk, Act.setEnvVar "PATH" env.setPathOk]
        else [Act.extract "java" env.extractJavaOk]) ++
        [Act.extract "elasticsearch" true, Act.extract "kibana" true] ++
        (if goos == "windows" then []
        else [Act.setEnvVar "JAVA_HOME" env.setJavaHomeOk]), ?_⟩
    by_cases hw : (goos == "windows") = true
    · simp [mainRun, hs, f1, f2, f3, f4, f5, f6, f7, f8, f9, hw]
    · rw [Bool.not_eq_true] at hw
      simp [mainRun, hs, f1, f2, f3, f4, f5, f6, f7, f8, f9, hw]
  · intro g hg hgw
    simp [kibanaWait, hgw]

/-- Claim C8 (confirmed): the outcome of the run never depends on whether
the final browser-open action succeeds, and whenever the browser-open
action appears in the trace at all, the run's outcome is success. -/
theorem claim_C8 (goos : String) (env : Env) (b : Bool)
    (hs : supported goos = true) :
    (mainRun goos (setBrowser env b)).2 = (mainRun goos env).2 ∧
    (∀ b', Act.openBrowser b' ∈ (mainRun goos env).1 →
      (mainRun goos env).2 = RunResult.completed) := by
  constructor
  · by_cases h1 : env.homeDirOk = false
    · simp [mainRun, setBrowser, h1]
    rw [Bool.not_eq_false] at h1
    by_cases h2 : env.mkdirRootOk = false
    · simp [mainRun, setBrowser, h1, h2]
    rw [Bool.not_eq_false] at h2
    by_cases h3 : env.exeOk = false
    · simp [mainRun, setBrowser, h1, h2, h3]
    rw [Bool.not_eq_false] at h3
    by_cases h4 : env.downloadJavaOk = false
    · simp [mainRun, setBrowser, hs, h1, h2, h3, h4]
    rw [Bool.not_eq_false] at h4
    by_cases h5 : env.downloadElasticOk = false
    · simp [mainRun, setBrowser, hs, h1, h2, h3, h4, h5]
    rw [Bool.not_eq_false] at h5
    by_cases h6 : env.downloadKibanaOk = false
    · simp [mainRun, setBrowser, hs, h1, h2, h3, h4, h5, h6]
    rw [Bool.not_eq_false] at h6
    by_cases h7 : env.extractElasticOk = false
    · simp [mainRun, setBrowser, hs, h1, h2, h3, h4, h5, h6, h7]
    rw [Bool.not_eq_false] at h7
    by_cases h8 : env.extractKibanaOk = false
    · simp [mainRun, setBrowser, hs, h1, h2, h3, h4, h5, h6, h7, h8]
    rw [Bool.not_eq_false] at h8
    by_cases h9 : env.startKibanaOk = false
    · simp [mainRun, setBrowser, hs, h1, h2, h3, h4, h5, h6, h7, h8, h9]
    rw [Bool.not_eq_false] at h9
    simp [mainRun, setBrowser, hs, h1, h2, h3, h4, h5, h6, h7, h8, h9]
  · intro b' hb
    by_contra hnc
    have hnmem : Act.openBrowser b' ∉ (mainRun goos env).1 := by
      by_cases h1 : env.homeDirOk = false
      · simp [mainRun, h1]
      rw [Bool.not_eq_false] at h1
      by_cases h2 : env.mkdirRootOk = false
      · simp [mainRun, h1, h2]
      rw [Bool.not_eq_false] at h2
      by_cases h3 : env.exeOk = false
      · simp [mainRun, h1, h2, h3]
      rw [Bool.not_eq_false] at h3
      by_cases h4 : env.downloadJavaOk = false
      · simp [mainRun, hs, h1, h2, h3, h4]
      rw [Bool.not_eq_false] at h4
      by_cases h5 : env.downloadElasticOk = false
      · simp [mainRun, hs, h1, h2, h3, h4, h5]
      rw [Bool.not_eq_false] at h5
      by_cases h6 : env.downloadKibanaOk = false
      · simp [mainRun, hs, h1, h2, h3, h4, h5, h6]
      rw [Bool.not_eq_false] at h6
      by_cases h7 : env.extractElasticOk = false
      · by_cases hw : (goos == "windows") = true
        · simp [mainRun, hs, h1, h2, h3, h4, h5, h6, h7, hw]
        · rw [Bool.not_eq_true] at hw
          simp [mainRun, hs, h1, h2, h3, h4, h5, h6, h7, hw]
      rw [Bool.not_eq_false] at h7
      by_cases h8 : env.extractKibanaOk = false
      · by_cases hw : (goos == "windows") = true
        · simp [mainRun, hs, h1, h2, h3, h4, h5, h6, h7, h8, hw]
        · rw [Bool.not_eq_true] at hw
          simp [mainRun, hs, h1, h2, h3, h4, h5, h6, h7, h8, hw]
      rw [Bool.not_eq_false] at h8
      by_cases h9 : env.startKibanaOk = false
      · by_cases hw : (goos == "windows") = true
        · simp [mainRun, hs, h1, h2, h3, h4, h5, h6, h7, h8, h9, hw]
        · rw [Bool.not_eq_true] at hw
          simp [mainRun, hs, h1, h2, h3, h4, h5, h6, h7, h8, h9, hw]
      rw [Bool.not_eq_false] at h9
      exact absurd ((mainRun_completed_iff env hs).2 (by
        simp [fatalOk, h1, h2, h3, h4, h5, h6, h7, h8, h9])) hnc
    exact hnmem hb

/-- Claim C2 (corrected): the fatal stages are exactly the home/installation
directory setup, the three downloads, the Elasticsearch and Kibana
extraction and the Kibana process launch; when one of them fails no later
stage is attempted.  Failures of the Java install step, the environment
mutations, the Elasticsearch process start and the browser open do not
stop the run. -/
theorem claim_C2 (goos : String) (env : Env) (hs : supported goos = true) :
    ((mainRun goos env).2 = RunResult.completed ↔ fatalOk env = true) ∧
    (env.downloadKibanaOk = false →
      ∀ b, Act.extract "elasticsearch" b ∉ (mainRun goos env).1 ∧
        Act.startProcess "elasticsearch" b ∉ (mainRun goos env).1) ∧
    (env.extractElasticOk = false →
      ∀ b, Act.extract "kibana" b ∉ (mainRun goos env).1 ∧
        Act.startProcess "elasticsearch" b ∉ (mainRun goos env).1) ∧
    (env.extractKibanaOk = false →
      ∀ b, Act.startProcess "elasticsearch" b ∉ (mainRun goos env).1) ∧
    (env.startKibanaOk = false →
      ∀ b, Act.openBrowser b ∉ (mainRun goos env).1) := by
  refine ⟨mainRun_completed_iff env hs, ?_, ?_, ?_, ?_⟩
  · intro hk b
    by_cases h1 : env.homeDirOk = false
    · simp [mainRun, h1]
    rw [Bool.not_eq_false] at h1
    by_cases h2 : env.mkdirRootOk = false
    · simp [mainRun, h1, h2]
    rw [Bool.not_eq_false] at h2
    by_cases h3 : env.exeOk = false
    · simp [mainRun, h1, h2, h3]
    rw [Bool.not_eq_false] at h3
    by_cases h4 : env.downloadJavaOk = false
    · simp [mainRun, hs, h1, h2, h3, h4]
    rw [Bool.not_eq_false] at h4
    by_cases h5 : env.downloadElasticOk = false
    · simp [mainRun, hs, h1, h2, h3, h4, h5]
    rw [Bool.not_eq_false] at h5
    simp [mainRun, hs, h1, h2, h3, h4, h5, hk]
  · intro he b
    by_cases h1 : env.homeDirOk = false
    · simp [mainRun, h1]
    rw [Bool.not_eq_false] at h1
    by_cases h2 : env.mkdirRootOk = false
    · simp [mainRun, h1, h2]
    rw [Bool.not_eq_false] at h2
    by_cases h3 : env.exeOk = false
    · simp [mainRun, h1, h2, h3]
    rw [Bool.not_eq_false] at h3
    by_cases h4 : env.downloadJavaOk = false
    · simp [mainRun, hs, h1, h2, h3, h4]
    rw [Bool.not_eq_false] at h4
    by_cases h5 : env.downloadElasticOk = false
    · simp [mainRun, hs, h1, h2, h3, h4, h5]
    rw [Bool.not_eq_false] at h5
    by_cases h6 : env.downloadKibanaOk = false
    · simp [mainRun, hs, h1, h2, h3, h4, h5, h6]
    rw [Bool.not_eq_false] at h6
    by_cases hw : (goos == "windows") = true
    · simp [mainRun, hs, h1, h2, h3, h4, h5, h6, he, hw]
    · rw [Bool.not_eq_true] at hw
      simp [mainRun, hs, h1, h2, h3, h4, h5, h6, he, hw]
  · intro he b
    by_cases h1 : env.homeDirOk = false
    · simp [mainRun, h1]
    rw [Bool.not_eq_false] at h1
    by_cases h2 : env.mkdirRootOk = false
    · simp [mainRun, h1, h2]
    rw [Bool.not_eq_false] at h2
    by_cases h3 : env.exeOk = false
    · simp [mainRun, h1, h2, h3]
    rw [Bool.not_eq_false] at h3
    by_cases h4 : env.downloadJavaOk = false
    · simp [mainRun, hs, h1, h2, h3, h4]
    rw [Bool.not_eq_false] at h4
    by_cases h5 : env.downloadElasticOk = false
    · simp [mainRun, hs, h1, h2, h3, h4, h5]
    rw [Bool.not_eq_false] at h5
    by_cases h6 : env.downloadKibanaOk = false
    · simp [mainRun, hs, h1, h2, h3, h4, h5, h6]
    rw [Bool.not_eq_false] at h6
    by_cases h7 : env.extractElasticOk = false
    · by_cases hw : (goos == "windows") = true
      · simp [mainRun, hs, h1, h2, h3, h4, h5, h6, h7, hw]
      · rw [Bool.not_eq_true] at hw
        simp [mainRun, hs, h1, h2, h3, h4, h5, h6, h7, hw]
    rw [Bool.not_eq_false] at h7
    by_cases hw : (goos == "windows") = true
    · simp [mainRun, hs, h1, h2, h3, h4, h5, h6, h7, he, hw]
    · rw [Bool.not_eq_true] at hw
      simp [mainRun, hs, h1, h2, h3, h4, h5, h6, h7, he, hw]
  · intro hk b
    by_cases h1 : env.homeDirOk = false
    · simp [mainRun, h1]
    rw [Bool.not_eq_false] at h1
    by_cases h2 : env.mkdirRootOk = false
    · simp [mainRun, h1, h2]
    rw [Bool.not_eq_false] at h2
    by_cases h3 : env.exeOk = false
    · simp [mainRun, h1, h2, h3]
    rw [Bool.not_eq_false] at h3
    by_cases h4 : env.downloadJavaOk = false
    · simp [mainRun, hs, h1, h2, h3, h4]
    rw [Bool.not_eq_false] at h4
    by_cases h5 : env.downloadElasticOk = false
    · simp [mainRun, hs, h1, h2, h3, h4, h5]
    rw [Bool.not_eq_false] at h5
    by_cases h6 : env.downloadKibanaOk = false
    · simp [mainRun, hs, h1, h2, h3, h4, h5, h6]
    rw [Bool.not_eq_false] at h6
    by_cases h7 : env.extractElasticOk = false
    · by_cases hw : (goos == "windows") = true
      · simp [mainRun, hs, h1, h2, h3, h4, h5, h6, h7, hw]
      · rw [Bool.not_eq_true] at hw
        simp [mainRun, hs, h1, h2, h3, h4, h5, h6, h7, hw]
    rw [Bool.not_eq_false] at h7
    by_cases h8 : env.extractKibanaOk = false
    · by_cases hw : (goos == "windows") = true
      · simp [mainRun, hs, h1, h2, h3, h4, h5, h6, h7, h8, hw]
      · rw [Bool.not_eq_true] at hw
        simp [mainRun, hs, h1, h2, h3, h4, h5, h6, h7, h8, hw]
    rw [Bool.not_eq_false] at h8
    by_cases hw : (goos == "windows") = true
    · simp [mainRun, hs, h1, h2, h3, h4, h5, h6, h7, h8, hk, hw]
    · rw [Bool.not_eq_true] at hw
      simp [mainRun, hs, h1, h2, h3, h4, h5, h6, h7, h8, hk, hw]

/-- Claim C5 (corrected): on an unsupported platform the run fails with
the unsupported-operating-system error before any download, extraction or
process launch, but only after resolving the home directory, creating the
installation root directory (a filesystem write) and resolving the
executable path. -/
theorem claim_C5 (goos : String) (env : Env) (hns : supported goos = false)
    (h1 : env.homeDirOk = true) (h2 : env.mkdirRootOk = true)
    (h3 : env.exeOk = true) :
    mainRun goos env =
      ([Act.getHomeDir, Act.mkdirInstallRoot, Act.getExecutablePath],
        RunResult.failed "unsupported operating system") := by
  simp [mainRun, h1, h2, h3, hns]

/-- Claim C1 (corrected, the zip half): if any non-skipped zip entry's
joined path escapes the destination, extraction fails (it never returns
success), and no path outside the destination — other than the
destination directory itself and its own ancestors, created up front —
is ever touched, whether extraction succeeds or fails. -/
theorem claim_C1 (dest : List String) (entries : List ZipEntry) (fs : FS)
    (h : ∃ e ∈ entries, skipB e = false ∧
      underB (cleanAbs dest) (cleanAbs (cleanAbs dest ++ e.name)) = false) :
    (extractZIP dest entries fs).2 ≠ none ∧
    ∀ p, startsWithComps (cleanAbs dest) p = false →
      startsWithComps p (cleanAbs dest) = false →
      ((extractZIP dest entries fs).1).node p = fs.node p := by
  constructor
  · rcases h0 : fs.mkdirAll (cleanAbs dest) 0o755 with _ | fs0
    · rw [extractZIP_eq_none h0]
      simp
    · rw [extractZIP_eq_some h0]
      exact zipFrom_escape entries fs0 h
  · intro p h1 h2
    rcases h0 : fs.mkdirAll (cleanAbs dest) 0o755 with _ | fs0
    · rw [extractZIP_eq_none h0]
    · rw [extractZIP_eq_some h0, zipFrom_outside h1 h2 entries fs0]
      refine mkdirAll_untouched h0 ?_
      intro hp
      rw [swc_of_mem_properPrefixes hp] at h2
      cases h2

/-- The tar extractor performs no containment check: a `../evil` entry is
extracted to a path outside the destination and extraction reports
success, refuting claim C1 as stated for gzip+tar archives. -/
theorem claim_C1_cex :
    (extractTGZ ["tmp", "out"]
      [⟨["..", "evil"], TarKind.reg, 420, "x", ""⟩] emptyFS).2 = none ∧
    ((extractTGZ ["tmp", "out"]
      [⟨["..", "evil"], TarKind.reg, 420, "x", ""⟩] emptyFS).1).node ["tmp", "evil"]
      = some (Node.file "x" 420) ∧
    startsWithComps (cleanAbs ["tmp", "out"]) ["tmp", "evil"] = false := by
  refine ⟨by decide, by decide, by decide⟩

/-- Witness for claim C1 at a concrete escaping zip archive. -/
theorem claim_C1_witness :
    (∃ e ∈ [(⟨["..", "evil"], false, "x", 420⟩ : ZipEntry)], skipB e = false ∧
      underB (cleanAbs ["tmp", "out"])
        (cleanAbs (cleanAbs ["tmp", "out"] ++ e.name)) = false) ∧
    ((extractZIP ["tmp", "out"] [⟨["..", "evil"], false, "x", 420⟩] emptyFS).2 ≠ none ∧
    ∀ p, startsWithComps (cleanAbs ["tmp", "out"]) p = false →
      startsWithComps p (cleanAbs ["tmp", "out"]) = false →
      ((extractZIP ["tmp", "out"] [⟨["..", "evil"], false, "x", 420⟩] emptyFS).1).node p
        = emptyFS.node p) :=
  ⟨by decide, claim_C1 ["tmp", "out"] [⟨["..", "evil"], false, "x", 420⟩] emptyFS (by decide)⟩

/-- Claim C3 (corrected): re-extraction into the same destination is a
no-op for every zip archive, and for every gzip+tar archive containing no
symlink entry; the excluded case is refuted by the counterexample. -/
theorem claim_C3 :
    (∀ (dest : List String) (es : List ZipEntry) (s t : FS),
      extractZIP dest es s = (t, none) → extractZIP dest es t = (t, none)) ∧
    (∀ (dest : List String) (es : List TarEntry) (s t : FS),
      (∀ e ∈ es, e.typeflag ≠ TarKind.symlink) →
      extractTGZ dest es s = (t, none) → extractTGZ dest es t = (t, none)) :=
  ⟨fun _ _ _ _ h => extractZIP_idem h,
   fun _ _ _ _ hsym h => extractTGZ_idem hsym h⟩

/-- A gzip+tar archive containing a symlink entry extracts successfully
once, but extracting it a second time into the same destination fails
with the symlink-exists error, refuting claim C3 as stated. -/
theorem claim_C3_cex :
    (extractTGZ ["tmp", "out"]
      [⟨["link"], TarKind.symlink, 511, "", "target.txt"⟩] emptyFS).2 = none ∧
    (extractTGZ ["tmp", "out"]
      [⟨["link"], TarKind.symlink, 511, "", "target.txt"⟩]
      (extractTGZ ["tmp", "out"]
        [⟨["link"], TarKind.symlink, 511, "", "target.txt"⟩] emptyFS).1).2
      = some ExtractErr.symlinkFailed := by
  refine ⟨by decide, by decide⟩

/-- Witness for claim C3 at a concrete one-file zip archive and a
concrete symlink-free tar archive. -/
theorem claim_C3_witness :
    (extractZIP ["tmp", "out"] [⟨["a.txt"], false, "hi", 420⟩] emptyFS =
      ((extractZIP ["tmp", "out"] [⟨["a.txt"], false, "hi", 420⟩] emptyFS).1, none) ∧
    extractZIP ["tmp", "out"] [⟨["a.txt"], false, "hi", 420⟩]
      (extractZIP ["tmp", "out"] [⟨["a.txt"], false, "hi", 420⟩] emptyFS).1 =
      ((extractZIP ["tmp", "out"] [⟨["a.txt"], false, "hi", 420⟩] emptyFS).1, none)) ∧
    (extractTGZ ["tmp", "out"] [⟨["b.txt"], TarKind.reg, 420, "y", ""⟩] emptyFS =
      ((extractTGZ ["tmp", "out"] [⟨["b.txt"], TarKind.reg, 420, "y", ""⟩] emptyFS).1, none) ∧
    extractTGZ ["tmp", "out"] [⟨["b.txt"], TarKind.reg, 420, "y", ""⟩]
      (extractTGZ ["tmp", "out"] [⟨["b.txt"], TarKind.reg, 420, "y", ""⟩] emptyFS).1 =
      ((extractTGZ ["tmp", "out"] [⟨["b.txt"], TarKind.reg, 420, "y", ""⟩] emptyFS).1, none)) := by
  have hz2 : (extractZIP ["tmp", "out"] [⟨["a.txt"], false, "hi", 420⟩] emptyFS).2 = none := by
    decide
  have hz : extractZIP ["tmp", "out"] [⟨["a.txt"], false, "hi", 420⟩] emptyFS =
      ((extractZIP ["tmp", "out"] [⟨["a.txt"], false, "hi", 420⟩] emptyFS).1, none) := by
    rw [← hz2]
  have ht2 : (extractTGZ ["tmp", "out"] [⟨["b.txt"], TarKind.reg, 420, "y", ""⟩] emptyFS).2
      = none := by decide
  have ht : extractTGZ ["tmp", "out"] [⟨["b.txt"], TarKind.reg, 420, "y", ""⟩] emptyFS =
      ((extractTGZ ["tmp", "out"] [⟨["b.txt"], TarKind.reg, 420, "y", ""⟩] emptyFS).1, none) := by
    rw [← ht2]
  exact ⟨⟨hz, claim_C3.1 _ _ _ _ hz⟩, ⟨ht, claim_C3.2 _ _ _ _ (by decide) ht⟩⟩

/-- Claim C4 (corrected, the zip half): in every successful zip
extraction every non-skipped regular-file entry ends up as a regular file
at its joined path, however directory entries are ordered; and the
spec's dir-after-file scenario extracts correctly from an empty
destination, for every content and mode. -/
theorem claim_C4 :
    (∀ (dest : List String) (es : List ZipEntry) (fs t : FS),
      extractZIP dest es fs = (t, none) →
      ∀ e ∈ es, skipB e = false → e.isDir = false →
      ∃ c m, t.node (cleanAbs (cleanAbs dest ++ e.name)) = some (Node.file c m)) ∧
    (∀ (c : String) (m : Nat),
      (extractZIP ["tmp", "out"]
        [⟨["dir", "file.txt"], false, c, m⟩, ⟨["dir"], true, "", 493⟩] emptyFS).2 = none ∧
      ((extractZIP ["tmp", "out"]
        [⟨["dir", "file.txt"], false, c, m⟩, ⟨["dir"], true, "", 493⟩] emptyFS).1).node
          ["tmp", "out", "dir", "file.txt"] = some (Node.file c m)) := by
  constructor
  · intro dest es fs t hrun e he hskip hdir
    rcases h0 : fs.mkdirAll (cleanAbs dest) 0o755 with _ | fs0
    · rw [extractZIP_eq_none h0] at hrun
      simp at hrun
    · rw [extractZIP_eq_some h0] at hrun
      exact zipFrom_file_placed es fs0 t hrun e he hskip hdir
  · intro c m
    exact ⟨rfl, rfl⟩

/-- The tar extractor creates no parent directories: a regular-file
entry whose parent directory has no directory entry at all fails
extraction and the file is not created, refuting claim C4 as stated for
gzip+tar archives. -/
theorem claim_C4_cex :
    (extractTGZ ["tmp", "out"]
      [⟨["a", "b.txt"], TarKind.reg, 420, "x", ""⟩] emptyFS).2
      = some ExtractErr.openFailed ∧
    ((extractTGZ ["tmp", "out"]
      [⟨["a", "b.txt"], TarKind.reg, 420, "x", ""⟩] emptyFS).1).node
      ["tmp", "out", "a", "b.txt"] = none := by
  refine ⟨by decide, by decide⟩

/-- Witness for claim C4 at a concrete zip archive whose directory entry
follows its file entry. -/
theorem claim_C4_witness :
    (extractZIP ["tmp", "out"]
      [⟨["dir", "file.txt"], false, "hello", 420⟩, ⟨["dir"], true, "", 493⟩] emptyFS =
      ((extractZIP ["tmp", "out"]
        [⟨["dir", "file.txt"], false, "hello", 420⟩, ⟨["dir"], true, "", 493⟩] emptyFS).1,
        none)) ∧
    (∃ c m, ((extractZIP ["tmp", "out"]
      [⟨["dir", "file.txt"], false, "hello", 420⟩, ⟨["dir"], true, "", 493⟩] emptyFS).1).node
        (cleanAbs (cleanAbs ["tmp", "out"] ++ ["dir", "file.txt"])) = some (Node.file c m)) := by
  have h2 : (extractZIP ["tmp", "out"]
      [⟨["dir", "file.txt"], false, "hello", 420⟩, ⟨["dir"], true, "", 493⟩] emptyFS).2
      = none := by decide
  have h : extractZIP ["tmp", "out"]
      [⟨["dir", "file.txt"], false, "hello", 420⟩, ⟨["dir"], true, "", 493⟩] emptyFS =
      ((extractZIP ["tmp", "out"]
        [⟨["dir", "file.txt"], false, "hello", 420⟩, ⟨["dir"], true, "", 493⟩] emptyFS).1,
        none) := by
    rw [← h2]
  exact ⟨h, claim_C4.1 ["tmp", "out"] _ emptyFS _ h
    ⟨["dir", "file.txt"], false, "hello", 420⟩ (by decide) (by decide) (by decide)⟩

/-- Claim C6 (confirmed): a zip entry whose stored path begins with the
reserved `__MACOSX/` prefix is skipped entirely — processing the entry
list with it is the same as processing the list without it, so it is
never written and the remaining entries proceed normally. -/
theorem claim_C6 (d : List String) (fs : FS) (e : ZipEntry)
    (rest : List ZipEntry) (h : skipB e = true) :
    extractZIPFrom d fs (e :: rest) = extractZIPFrom d fs rest := by
  rw [zipFrom_cons, zipStep_skip h]

/-- Witness for claim C6 at a concrete `__MACOSX/` entry. -/
theorem claim_C6_witness :
    skipB ⟨["__MACOSX", "junk.txt"], false, "z", 420⟩ = true ∧
    extractZIPFrom ["tmp", "out"] emptyFS
      [⟨["__MACOSX", "junk.txt"], false, "z", 420⟩] =
      extractZIPFrom ["tmp", "out"] emptyFS [] :=
  ⟨by decide, claim_C6 ["tmp", "out"] emptyFS _ [] (by decide)⟩

/-- The state after the ignored `os.MkdirAll(fpath, os.ModePerm)` of a
zip directory entry: the created state on success, the old state
unchanged when the call failed. -/
def mdOr (fs : FS) (p : List String) : FS :=
  match fs.mkdirAll p 0o777 with
  | some fs1 => fs1
  | none => fs

/-- Claim C9 (confirmed): a zip directory entry is handled by
`os.MkdirAll(fpath, os.ModePerm)` with the result discarded — the loop
continues identically whether it succeeded or failed — and a freshly
created directory gets mode `0o777`, not the entry's stored mode. -/
theorem claim_C9 (d : List String) (fs : FS) (e : ZipEntry)
    (rest : List ZipEntry) (h1 : skipB e = false) (h2 : e.isDir = true)
    (h3 : underB d (cleanAbs (d ++ e.name)) = true) :
    extractZIPFrom d fs (e :: rest) =
      extractZIPFrom d (mdOr fs (cleanAbs (d ++ e.name))) rest ∧
    (fs.mkdirAll (cleanAbs (d ++ e.name)) 0o777 = none →
      mdOr fs (cleanAbs (d ++ e.name)) = fs) ∧
    (∀ fs', fs.mkdirAll (cleanAbs (d ++ e.name)) 0o777 = some fs' →
      fs.node (cleanAbs (d ++ e.name)) = none →
      fs'.node (cleanAbs (d ++ e.name)) = some (Node.dir 0o777)) := by
  refine ⟨?_, ?_, ?_⟩
  · rcases h4 : fs.mkdirAll (cleanAbs (d ++ e.name)) 0o777 with _ | fs1
    · have hy : extractZIPFrom d fs (e :: rest) = extractZIPFrom d fs rest := by
        rw [zipFrom_cons, zipStep_dir_none h1 h3 h2 h4]
      rw [hy]
      simp [mdOr, h4]
    · have hy : extractZIPFrom d fs (e :: rest) = extractZIPFrom d fs1 rest := by
        rw [zipFrom_cons, zipStep_dir_some h1 h3 h2 h4]
      rw [hy]
      simp [mdOr, h4]
  · intro h4
    simp [mdOr, h4]
  · intro fs' h4 hnone
    rw [mkdirAll_some_node h4]
    have hne : cleanAbs (d ++ e.name) ≠ [] := by
      have hlt := (underB_eq_true h3).2
      exact List.ne_nil_of_length_pos (Nat.lt_of_le_of_lt (Nat.zero_le _) hlt)
    simp [self_mem_properPrefixes hne, hnone]

/-- Witness for claim C9 at a concrete zip directory entry with stored
mode `0o750`, created as `0o777`. -/
theorem claim_C9_witness :
    skipB ⟨["sub"], true, "", 488⟩ = false ∧
    (⟨["sub"], true, "", 488⟩ : ZipEntry).isDir = true ∧
    underB ["tmp", "out"] (cleanAbs (["tmp", "out"] ++ ["sub"])) = true ∧
    (extractZIPFrom ["tmp", "out"] emptyFS [⟨["sub"], true, "", 488⟩] =
      extractZIPFrom ["tmp", "out"]
        (mdOr emptyFS (cleanAbs (["tmp", "out"] ++ ["sub"]))) [] ∧
    (emptyFS.mkdirAll (cleanAbs (["tmp", "out"] ++ ["sub"])) 0o777 = none →
      mdOr emptyFS (cleanAbs (["tmp", "out"] ++ ["sub"])) = emptyFS) ∧
    (∀ fs', emptyFS.mkdirAll (cleanAbs (["tmp", "out"] ++ ["sub"])) 0o777 = some fs' →
      emptyFS.node (cleanAbs (["tmp", "out"] ++ ["sub"])) = none →
      fs'.node (cleanAbs (["tmp", "out"] ++ ["sub"])) = some (Node.dir 0o777))) :=
  ⟨by decide, by decide, by decide,
   claim_C9 ["tmp", "out"] emptyFS ⟨["sub"], true, "", 488⟩ []
     (by decide) (by decide) (by decide)⟩

/-- Claim C10 (confirmed): `downloadFile` creates (or truncates) the file
at the staging path before issuing the request, so whenever the request
fails the error is returned with an empty file left behind at the
staging path. -/
theorem claim_C10 (p : List String) (net : NetEnv) (fs : FS)
    (h1 : (fs.writeFile p "" 0o666).isSome = true) (h2 : net.getOk = false) :
    (downloadFile p net fs).2 = some "get failed" ∧
    ∃ m, ((downloadFile p net fs).1).node p = some (Node.file "" m) := by
  rcases h0 : fs.writeFile p "" 0o666 with _ | fs1
  · rw [h0] at h1
    simp at h1
  · have hd : downloadFile p net fs = (fs1, some "get failed") := by
      simp [downloadFile, h0, h2]
    rw [hd]
    obtain ⟨⟨mm, hmm⟩, -⟩ := writeFile_node h0
    exact ⟨rfl, mm, hmm⟩

/-- Witness for claim C10 at a concrete staging path and a failing
request. -/
theorem claim_C10_witness :
    ((emptyFS.writeFile ["staging.zip"] "" 0o666).isSome = true ∧
      (⟨false, true, "body", "par"⟩ : NetEnv).getOk = false) ∧
    ((downloadFile ["staging.zip"] ⟨false, true, "body", "par"⟩ emptyFS).2
        = some "get failed" ∧
      ∃ m, ((downloadFile ["staging.zip"] ⟨false, true, "body", "par"⟩ emptyFS).1).node
        ["staging.zip"] = some (Node.file "" m)) :=
  ⟨⟨by decide, by decide⟩,
   claim_C10 ["staging.zip"] ⟨false, true, "body", "par"⟩ emptyFS (by decide) (by decide)⟩

/-- On Linux with every other effect succeeding, a failed Java extraction
is only reported: the run still extracts Elasticsearch and Kibana,
launches both processes and completes, refuting claim C2 as stated. -/
theorem claim_C2_cex :
    (mainRun "linux"
      ⟨true, true, true, true, true, true, true, true, false, true, true, true,
        true, true, true⟩).2 = RunResult.completed ∧
    Act.extract "java" false ∈ (mainRun "linux"
      ⟨true, true, true, true, true, true, true, true, false, true, true, true,
        true, true, true⟩).1 ∧
    Act.extract "elasticsearch" true ∈ (mainRun "linux"
      ⟨true, true, true, true, true, true, true, true, false, true, true, true,
        true, true, true⟩).1 ∧
    Act.startProcess "kibana" true ∈ (mainRun "linux"
      ⟨true, true, true, true, true, true, true, true, false, true, true, true,
        true, true, true⟩).1 := by
  refine ⟨by decide, by decide, by decide, by decide⟩

/-- Witness for claim C2 on Linux with the all-success oracle. -/
theorem claim_C2_witness :
    supported "linux" = true ∧
    (((mainRun "linux" envAllOk).2 = RunResult.completed ↔ fatalOk envAllOk = true) ∧
    (envAllOk.downloadKibanaOk = false →
      ∀ b, Act.extract "elasticsearch" b ∉ (mainRun "linux" envAllOk).1 ∧
        Act.startProcess "elasticsearch" b ∉ (mainRun "linux" envAllOk).1) ∧
    (envAllOk.extractElasticOk = false →
      ∀ b, Act.extract "kibana" b ∉ (mainRun "linux" envAllOk).1 ∧
        Act.startProcess "elasticsearch" b ∉ (mainRun "linux" envAllOk).1) ∧
    (envAllOk.extractKibanaOk = false →
      ∀ b, Act.startProcess "elasticsearch" b ∉ (mainRun "linux" envAllOk).1) ∧
    (envAllOk.startKibanaOk = false →
      ∀ b, Act.openBrowser b ∉ (mainRun "linux" envAllOk).1)) :=
  ⟨by decide, claim_C2 "linux" envAllOk (by decide)⟩

/-- On an unsupported platform the run creates the installation root
directory — a filesystem write — before failing, refuting claim C5's
"performs no filesystem writes before failing". -/
theorem claim_C5_cex :
    mainRun "plan9" envAllOk =
      ([Act.getHomeDir, Act.mkdirInstallRoot, Act.getExecutablePath],
        RunResult.failed "unsupported operating system") ∧
    Act.mkdirInstallRoot ∈ (mainRun "plan9" envAllOk).1 := by
  refine ⟨by decide, by decide⟩

/-- Witness for claim C5 at a concrete unsupported platform string. -/
theorem claim_C5_witness :
    supported "freebsd" = false ∧
    mainRun "freebsd" envAllOk =
      ([Act.getHomeDir, Act.mkdirInstallRoot, Act.getExecutablePath],
        RunResult.failed "unsupported operating system") :=
  ⟨by decide, claim_C5 "freebsd" envAllOk (by decide) (by decide) (by decide) (by decide)⟩

/-- Witness for claim C7 on Windows with the all-success oracle. -/
theorem claim_C7_witness :
    ((mainRun "windows" envAllOk).2 = RunResult.completed) ∧
    ((∃ pre, (mainRun "windows" envAllOk).1 = pre ++
      [Act.startProcess "elasticsearch" envAllOk.startElasticOk, Act.sleepSeconds 60,
       Act.startProcess "kibana" true, Act.sleepSeconds (kibanaWait "windows"),
       Act.openBrowser envAllOk.browserOk]) ∧
    kibanaWait "windows" = 240 ∧
    (∀ g, supported g = true → g ≠ "windows" → kibanaWait g = 90) ∧
    (90 : Nat) < 240) :=
  ⟨by decide, claim_C7 "windows" envAllOk (by decide) (by decide)⟩

/-- Witness for claim C8 on Darwin with the all-success oracle and a
failing browser open. -/
theorem claim_C8_witness :
    supported "darwin" = true ∧
    ((mainRun "darwin" (setBrowser envAllOk false)).2 = (mainRun "darwin" envAllOk).2 ∧
    (∀ b', Act.openBrowser b' ∈ (mainRun "darwin" envAllOk).1 →
      (mainRun "darwin" envAllOk).2 = RunResult.completed)) :=
  ⟨by decide, claim_C8 "darwin" envAllOk false (by decide)⟩
